import Mathlib

/-!
Verification development for the zodb-json-codec transcoder.

The core transcoder (pickle VM decoder, value model, known-type recognizer,
BTree flattener, JSON writer/reader, pickle encoder, record framing) is
embedded shallowly below.  Byte strings are modelled as `List Nat` with each
byte reduced modulo 256 where it is read; Unicode string data is modelled by
its UTF-8 byte sequence, since the codec treats string contents opaquely.
-/

namespace ZJC

/-- ASCII bytes of a Lean string literal (used for names and JSON text). -/
def sb (s : String) : List Nat := s.data.map Char.toNat

/-- Read a little-endian unsigned integer from a byte list. -/
def rdLE : List Nat → Nat
  | [] => 0
  | b :: tl => b % 256 + 256 * rdLE tl

/-- Write `n` as `k` little-endian bytes (modulo 2^(8k)). -/
def wrLE : Nat → Nat → List Nat
  | 0, _ => []
  | k + 1, n => n % 256 :: wrLE k (n / 256)

/-- Read a big-endian unsigned integer from a byte list. -/
def rdBE (bs : List Nat) : Nat := rdLE bs.reverse

/-- Write `n` as `k` big-endian bytes (modulo 2^(8k)). -/
def wrBE (k n : Nat) : List Nat := (wrLE k n).reverse

/-- Take exactly `n` bytes (reduced mod 256) from the input, or fail. -/
def readN (n : Nat) (bs : List Nat) : Option (List Nat × List Nat) :=
  if n ≤ bs.length then some ((bs.take n).map (· % 256), bs.drop n) else none

/-- Read one newline-terminated line (bytes before the first 10), or fail. -/
def readLine : List Nat → Option (List Nat × List Nat)
  | [] => none
  | b :: tl =>
    if b % 256 = 10 then some ([], tl)
    else match readLine tl with
         | some (l, r) => some (b % 256 :: l, r)
         | none => none

/-- Decimal digit bytes of a natural number, most significant first
(fuel-based so that it reduces in the kernel). -/
def decAux : Nat → Nat → List Nat
  | 0, _ => []
  | f + 1, n => if n < 10 then [48 + n] else decAux f (n / 10) ++ [48 + n % 10]

/-- Decimal digit bytes of a natural number. -/
def decNat (n : Nat) : List Nat := decAux (n + 1) n

/-- Value of a list of decimal digit bytes. -/
def digitsVal (ds : List Nat) : Nat := ds.foldl (fun a d => a * 10 + (d - 48)) 0

/-- Decimal byte text of an integer (with a leading 45 `-` when negative). -/
def decInt (i : Int) : List Nat :=
  if i < 0 then 45 :: decNat i.natAbs else decNat i.toNat

/-- Greedily read decimal digit bytes; returns the digits and the rest. -/
def munchDigits : List Nat → List Nat × List Nat
  | [] => ([], [])
  | b :: tl =>
    if 48 ≤ b ∧ b ≤ 57 then
      let (ds, r) := munchDigits tl
      (b :: ds, r)
    else ([], b :: tl)

/-- Parse a decimal natural number at the head of the input (≥ 1 digit). -/
def parseNatD (bs : List Nat) : Option (Nat × List Nat) :=
  match munchDigits bs with
  | ([], _) => none
  | (ds, r) => some (digitsVal ds, r)

/-- Parse an optionally `-`-signed decimal integer. -/
def parseIntD (bs : List Nat) : Option (Int × List Nat) :=
  match bs with
  | 45 :: tl => (parseNatD tl).map fun (n, r) => (-(n : Int), r)
  | _ => (parseNatD bs).map fun (n, r) => ((n : Int), r)

/-- Lowercase hex digit byte for a value < 16. -/
def hexDig (n : Nat) : Nat := if n < 10 then 48 + n else 87 + n

/-- Lowercase hex byte text for a byte list (two digits per byte). -/
def hexOfBytes : List Nat → List Nat
  | [] => []
  | b :: tl => hexDig (b / 16) :: hexDig (b % 16) :: hexOfBytes tl

/-- Value of one hex digit byte, or failure. -/
def unhexDig (c : Nat) : Option Nat :=
  if 48 ≤ c ∧ c ≤ 57 then some (c - 48)
  else if 97 ≤ c ∧ c ≤ 102 then some (c - 87)
  else if 65 ≤ c ∧ c ≤ 70 then some (c - 55)
  else none

/-- Bytes denoted by even-length hex text, or failure. -/
def bytesOfHex : List Nat → Option (List Nat)
  | [] => some []
  | [_] => none
  | c1 :: c2 :: tl =>
    match unhexDig c1, unhexDig c2, bytesOfHex tl with
    | some h, some l, some r => some ((16 * h + l) :: r)
    | _, _, _ => none

/-- Base64 alphabet byte for a value < 64. -/
def b64c (n : Nat) : Nat :=
  if n < 26 then 65 + n
  else if n < 52 then 71 + n
  else if n < 62 then n - 4
  else if n = 62 then 43
  else 47

/-- Base64 text (with `=` padding) of a byte list. -/
def b64e : List Nat → List Nat
  | [] => []
  | [a] => [b64c (a / 4), b64c (a % 4 * 16), 61, 61]
  | [a, b] => [b64c (a / 4), b64c (a % 4 * 16 + b / 16), b64c (b % 16 * 4), 61]
  | a :: b :: c :: tl =>
    b64c (a / 4) :: b64c (a % 4 * 16 + b / 16) :: b64c (b % 16 * 4 + c / 64) ::
      b64c (c % 64) :: b64e tl

/-- Value of one base64 alphabet byte, or failure. -/
def unb64c (c : Nat) : Option Nat :=
  if 65 ≤ c ∧ c ≤ 90 then some (c - 65)
  else if 97 ≤ c ∧ c ≤ 122 then some (c - 71)
  else if 48 ≤ c ∧ c ≤ 57 then some (c + 4)
  else if c = 43 then some 62
  else if c = 47 then some 63
  else none

/-- Bytes denoted by base64 text (requires well-formed padding), or failure. -/
def b64d : List Nat → Option (List Nat)
  | [] => some []
  | c1 :: c2 :: c3 :: c4 :: tl =>
    match unb64c c1, unb64c c2 with
    | some x, some y =>
      if c3 = 61 ∧ c4 = 61 ∧ tl = [] then
        if y % 16 = 0 then some [x * 4 + y / 16] else none
      else if c4 = 61 ∧ tl = [] then
        match unb64c c3 with
        | some z => if z % 4 = 0 then some [x * 4 + y / 16, y % 16 * 16 + z / 4] else none
        | none => none
      else
        match unb64c c3, unb64c c4, b64d tl with
        | some z, some w, some r =>
          some ((x * 4 + y / 16) :: (y % 16 * 16 + z / 4) :: (z % 4 * 64 + w) :: r)
        | _, _, _ => none
    | _, _ => none
  | _ => none

/-! ### IEEE-754 doubles
Floats are carried as their 64-bit pattern (a `Nat` below `2^64`); floats
are 8-byte big-endian on the pickle wire.  Finite doubles denote the exact
rational `M * 2^e`; the decimal text emitted for JSON is that exact value,
and the reader converts exact decimal text back to the pattern. -/

/-- Sign, integral mantissa and binary exponent of a finite double pattern. -/
def floatMEOfBits (bits : Nat) : Bool × Nat × Int :=
  let s := bits / 2 ^ 63 % 2
  let E := bits / 2 ^ 52 % 2048
  let F := bits % 2 ^ 52
  if E = 0 then (s = 1, F, -1074) else (s = 1, 2 ^ 52 + F, Int.ofNat E - 1075)

/-- Decimal digits of `m` left-padded with zeros to `k` digits. -/
def padDec (k m : Nat) : List Nat :=
  List.replicate (k - (decNat m).length) 48 ++ decNat m

/-- Exact decimal text of the positive value `M * 2^e` (with a decimal
point, so the JSON reader keeps the float disposition). -/
def posFloatText (M : Nat) (e : Int) : List Nat :=
  if M = 0 then [48, 46, 48]
  else if 0 ≤ e then decNat (M * 2 ^ e.toNat) ++ [46, 48]
  else
    let k := (-e).toNat
    let N := M * 5 ^ k
    decNat (N / 10 ^ k) ++ [46] ++ padDec k (N % 10 ^ k)

/-- Exact decimal text of a finite double pattern. -/
def floatText (bits : Nat) : List Nat :=
  match floatMEOfBits bits with
  | (neg, M, e) => (if neg then [45] else []) ++ posFloatText M e

/-- Normalize mantissa/exponent to IEEE form: halve an oversized mantissa
(failing when a halving would lose a bit), double an undersized one down to
the subnormal exponent floor. -/
def normF : Nat → Nat → Int → Option (Nat × Int)
  | 0, _, _ => none
  | f + 1, M, e =>
    if 2 ^ 53 ≤ M then
      if M % 2 = 0 then normF f (M / 2) (e + 1) else none
    else if M < 2 ^ 52 ∧ -1074 < e then normF f (M * 2) (e - 1)
    else some (M, e)

/-- Assemble a double pattern from a sign and a normalized mantissa/exponent. -/
def bitsOfME (neg : Bool) (M : Nat) (e : Int) : Option Nat :=
  let sbit := if neg then 2 ^ 63 else 0
  if M = 0 then some sbit
  else if 2 ^ 52 ≤ M ∧ M < 2 ^ 53 then
    let E := e + 1075
    if 1 ≤ E ∧ E ≤ 2046 then some (sbit + E.toNat * 2 ^ 52 + (M - 2 ^ 52)) else none
  else if e = -1074 then some (sbit + M)
  else none

/-- Double pattern denoted exactly by
`(-1)^neg * (ip . fracDigits) * 10^ex`; fails when the value is not a
finite double hit exactly. -/
def floatOfParts (neg : Bool) (ip : Nat) (fracDigits : List Nat) (ex : Int) : Option Nat :=
  let len := fracDigits.length
  let n := ip * 10 ^ len + digitsVal fracDigits
  let t : Int := ex - len
  let fuel := 1200 + 4 * ((decNat ip).length + len + ex.natAbs) + 5
  let me : Option (Nat × Int) :=
    if 0 ≤ t then some (n * 10 ^ t.toNat, 0)
    else
      let k := (-t).toNat
      if n % 5 ^ k = 0 then some (n / 5 ^ k, -(k : Int)) else none
  match me with
  | none => none
  | some (M0, e0) =>
    match normF fuel M0 e0 with
    | none => none
    | some (M, e) => bitsOfME neg M e

/-- Parse decimal float text `[-]d+[.d*][(e|E)[±]d+]` into a double
pattern (exact values only). -/
def parseFloatBody (bs : List Nat) : Option (Nat × List Nat) :=
  let (neg, bs1) : Bool × List Nat :=
    match bs with
    | 45 :: tl => (true, tl)
    | _ => (false, bs)
  match munchDigits bs1 with
  | ([], _) => none
  | (ids, r1) =>
    let (fds, r2) : List Nat × List Nat :=
      match r1 with
      | 46 :: tl => munchDigits tl
      | _ => ([], r1)
    let contEx : Option (Int × List Nat) :=
      match r2 with
      | 101 :: 43 :: tl => parseIntD tl
      | 101 :: tl => parseIntD tl
      | 69 :: 43 :: tl => parseIntD tl
      | 69 :: tl => parseIntD tl
      | _ => some (0, r2)
    match contEx with
    | none => none
    | some (ex, r3) =>
      match floatOfParts neg (digitsVal ids) fds ex with
      | none => none
      | some bits => some (bits, r3)

/-! ### Value model (spec §3.1)
Modelled from the spec: the language-neutral tagged-variant tree between
decoder and JSON writer.  `vknown` holds the known-type rewrites of §4.2
(set/frozenset use their own variants); `vrecord` is the class-identity
plus state envelope; a persistent-reference class hint is carried as the
joined `module.classname` byte string. -/

/-- Timezone payload of a known datetime/time: a fixed UTC offset in
minutes, an ecosystem-A (pytz) zone name, or an ecosystem-B (zoneinfo)
zone name. -/
inductive Tzv where
  | off (minutes : Int)
  | pytz (name : List Nat)
  | zinfo (name : List Nat)
  deriving DecidableEq

/-- Known-type values (spec §4.2). -/
inductive Known where
  | dt (y mo d h mi s us : Nat) (tz : Option Tzv)
  | date (y mo d : Nat)
  | time (h mi s us : Nat) (tz : Option Tzv)
  | td (d s us : Int)
  | dec (s : List Nat)
  | uuid (n : Nat)
  deriving DecidableEq

/-- The value model. -/
inductive Value where
  | vnone
  | vbool (b : Bool)
  | vint (n : Int)
  | vfloat (bits : Nat)
  | vstr (s : List Nat)
  | vbytes (bs : List Nat)
  | vlist (xs : List Value)
  | vtuple (xs : List Value)
  | vdict (xs : List (Value × Value))
  | vset (xs : List Value)
  | vfset (xs : List Value)
  | vglobal (m q : List Nat)
  | vref (oid : List Nat) (hint : Option (List Nat))
  | vreduce (m q : List Nat) (args : List Value) (st : Option Value)
      (li : List Value) (di : List (Value × Value))
  | vknown (k : Known)
  | vrecord (m q : List Nat) (st : Value)

mutual

/-- Structural boolean equality on values. -/
def vbeq : Value → Value → Bool
  | .vnone, b => match b with | .vnone => true | _ => false
  | .vbool x, b => match b with | .vbool y => decide (x = y) | _ => false
  | .vint x, b => match b with | .vint y => decide (x = y) | _ => false
  | .vfloat x, b => match b with | .vfloat y => decide (x = y) | _ => false
  | .vstr x, b => match b with | .vstr y => decide (x = y) | _ => false
  | .vbytes x, b => match b with | .vbytes y => decide (x = y) | _ => false
  | .vlist x, b => match b with | .vlist y => vbeqL x y | _ => false
  | .vtuple x, b => match b with | .vtuple y => vbeqL x y | _ => false
  | .vdict x, b => match b with | .vdict y => vbeqP x y | _ => false
  | .vset x, b => match b with | .vset y => vbeqL x y | _ => false
  | .vfset x, b => match b with | .vfset y => vbeqL x y | _ => false
  | .vglobal m1 q1, b =>
    match b with
    | .vglobal m2 q2 => decide (m1 = m2) && decide (q1 = q2)
    | _ => false
  | .vref o1 h1, b =>
    match b with
    | .vref o2 h2 => decide (o1 = o2) && decide (h1 = h2)
    | _ => false
  | .vreduce m1 q1 a1 s1 l1 d1, b =>
    match b with
    | .vreduce m2 q2 a2 s2 l2 d2 =>
      decide (m1 = m2) && decide (q1 = q2) && vbeqL a1 a2 && vbeqO s1 s2 &&
        vbeqL l1 l2 && vbeqP d1 d2
    | _ => false
  | .vknown x, b => match b with | .vknown y => decide (x = y) | _ => false
  | .vrecord m1 q1 s1, b =>
    match b with
    | .vrecord m2 q2 s2 => decide (m1 = m2) && decide (q1 = q2) && vbeq s1 s2
    | _ => false
termination_by structural a => a

/-- Boolean equality on value lists. -/
def vbeqL : List Value → List Value → Bool
  | [], bs => match bs with | [] => true | _ => false
  | a :: as_, bs => match bs with | b :: bs2 => vbeq a b && vbeqL as_ bs2 | _ => false
termination_by structural a => a

/-- Boolean equality on value-pair lists. -/
def vbeqP : List (Value × Value) → List (Value × Value) → Bool
  | [], bs => match bs with | [] => true | _ => false
  | (k1, v1) :: as_, bs =>
    match bs with
    | (k2, v2) :: bs2 => vbeq k1 k2 && vbeq v1 v2 && vbeqP as_ bs2
    | _ => false
termination_by structural a => a

/-- Boolean equality on optional values. -/
def vbeqO : Option Value → Option Value → Bool
  | none, b => match b with | none => true | _ => false
  | some a, b => match b with | some y => vbeq a y | _ => false
termination_by structural a => a

end

/-! ### Pickle decoder (spec §4.1)
Modelled from the spec: a byte-level virtual machine with a value stack, a
marker stack (stack lengths at `MARK`), a dense optional-entry memo table
and the protocol number.  Stack entries carry the memo index they were
stored under so that in-place container mutations are reflected in the
memo (pickle memoization is identity-preserving).  The recursion-depth
limit of §5 concerns the host implementation's call stack and has no
observable analogue in this tree-building model. -/

/-- Error taxonomy (spec §7), shared by all components. -/
inductive DErr where
  | truncated
  | badOpcode (b : Nat)
  | stackUnderflow (op : Nat)
  | badMemo (i : Nat)
  | badStop
  | unsupportedProto (p : Nat)
  | cyclic
  | depthExceeded
  | badRecord
  | badJson
  | mixedMarker (k : List Nat)
  | unknownMarker (k : List Nat)
  | badMarkerShape (k : List Nat)
  | encodeFailure
  deriving DecidableEq

/-- Decoder machine state. -/
structure MSt where
  stack : List (Value × Option Nat)
  marks : List Nat
  memo : List (Option Value)
  proto : Nat

/-- Push a value (not memo-tracked yet). -/
def push (v : Value) (st : MSt) : MSt := { st with stack := (v, none) :: st.stack }

/-- Store `v` at memo index `i`, padding sparse indices with empty entries. -/
def memoSet (M : List (Option Value)) (i : Nat) (v : Value) : List (Option Value) :=
  if i < M.length then M.set i (some v)
  else M ++ List.replicate (i - M.length) none ++ [some v]

/-- Reflect a mutation of a memo-tracked stack entry into the memo. -/
def patchTag (M : List (Option Value)) : Option Nat → Value → List (Option Value)
  | none, _ => M
  | some i, v => M.set i (some v)

/-- Pop the values above the most recent mark (in push order). -/
def popMark (st : MSt) : Option (List Value × MSt) :=
  match st.marks with
  | [] => none
  | k :: mrest =>
    if k ≤ st.stack.length then
      some (((st.stack.take (st.stack.length - k)).map Prod.fst).reverse,
            { st with stack := st.stack.drop (st.stack.length - k), marks := mrest })
    else none

/-- Python-dict item assignment: replace in place, else append. -/
def setItemB : List (Value × Value) → Value → Value → List (Value × Value)
  | [], k, v => [(k, v)]
  | (k0, v0) :: tl, k, v =>
    if vbeq k0 k then (k0, v) :: tl else (k0, v0) :: setItemB tl k v

/-- Batch item assignment. -/
def setItems (xs : List (Value × Value)) (ps : List (Value × Value)) :
    List (Value × Value) :=
  ps.foldl (fun a kv => setItemB a kv.1 kv.2) xs

/-- Group a flat even-length list into key-value pairs. -/
def toPairs : List Value → Option (List (Value × Value))
  | [] => some []
  | k :: v :: tl => (toPairs tl).map (fun r => (k, v) :: r)
  | [_] => none

/-- Read a little-endian signed (two's-complement) integer. -/
def rdTC (bs : List Nat) : Int :=
  match bs.getLast? with
  | none => 0
  | some b =>
    if 128 ≤ b % 256 then (rdLE bs : Int) - 2 ^ (8 * bs.length) else (rdLE bs : Int)

/-- Persistent-id shapes accepted by `BINPERSID` (spec §4.1): bare oid
bytes, or a 2-tuple of oid and class hint; the hint is joined into a
single `module.classname` byte string. -/
def prefOfPid : Value → Option Value
  | .vbytes oid => some (.vref oid none)
  | .vstr oid => some (.vref oid none)
  | .vtuple [.vbytes oid, .vglobal m q] => some (.vref oid (some (m ++ 46 :: q)))
  | .vtuple [.vbytes oid, .vtuple [.vstr m, .vstr q]] =>
    some (.vref oid (some (m ++ 46 :: q)))
  | _ => none

/-- One decoding result: a final value plus the unconsumed bytes. -/
abbrev DRes := Except DErr (Value × List Nat)

/-- Memo lookup. -/
def memoGet (M : List (Option Value)) (i : Nat) : Option Value :=
  match M.get? i with
  | some (some v) => some v
  | _ => none

/-- The pickle virtual machine.  One fuel unit per opcode; the stream
halts at `STOP`, returning the single stack element and the rest of the
input. -/
def run : Nat → List Nat → MSt → DRes
  | 0, _, _ => .error .truncated
  | _ + 1, [], _ => .error .truncated
  | f + 1, b :: tl, st =>
    match b % 256 with
    | 46 => -- STOP
      match st.stack with
      | [(v, _)] => .ok (v, tl)
      | _ => .error .badStop
    | 128 => -- PROTO
      match tl with
      | p :: r =>
        if p % 256 ≤ 5 then run f r { st with proto := p % 256 }
        else .error (.unsupportedProto (p % 256))
      | [] => .error .truncated
    | 149 => -- FRAME (length ignored)
      match readN 8 tl with
      | some (_, r) => run f r st
      | none => .error .truncated
    | 40 => run f tl { st with marks := st.stack.length :: st.marks } -- MARK
    | 48 => -- POP
      match st.stack with
      | _ :: rest => run f tl { st with stack := rest }
      | [] => .error (.stackUnderflow 48)
    | 49 => -- POP_MARK
      match popMark st with
      | some (_, st1) => run f tl st1
      | none => .error (.stackUnderflow 49)
    | 50 => -- DUP
      match st.stack with
      | (v, t) :: rest => run f tl { st with stack := (v, t) :: (v, t) :: rest }
      | [] => .error (.stackUnderflow 50)
    | 78 => run f tl (push .vnone st) -- NONE
    | 136 => run f tl (push (.vbool true) st) -- NEWTRUE
    | 137 => run f tl (push (.vbool false) st) -- NEWFALSE
    | 75 => -- BININT1
      match readN 1 tl with
      | some (cs, r) => run f r (push (.vint (rdLE cs)) st)
      | none => .error .truncated
    | 77 => -- BININT2
      match readN 2 tl with
      | some (cs, r) => run f r (push (.vint (rdLE cs)) st)
      | none => .error .truncated
    | 74 => -- BININT (32-bit signed)
      match readN 4 tl with
      | some (cs, r) =>
        let u := rdLE cs
        run f r (push (.vint (if 2 ^ 31 ≤ u then (u : Int) - 2 ^ 32 else (u : Int))) st)
      | none => .error .truncated
    | 138 => -- LONG1
      match readN 1 tl with
      | some (cs, r) =>
        match readN (rdLE cs) r with
        | some (bs, r2) => run f r2 (push (.vint (rdTC bs)) st)
        | none => .error .truncated
      | none => .error .truncated
    | 139 => -- LONG4
      match readN 4 tl with
      | some (cs, r) =>
        match readN (rdLE cs) r with
        | some (bs, r2) => run f r2 (push (.vint (rdTC bs)) st)
        | none => .error .truncated
      | none => .error .truncated
    | 73 => -- INT (text; 00/01 are protocol-0 booleans)
      match readLine tl with
      | some (l, r) =>
        if l = [48, 48] then run f r (push (.vbool false) st)
        else if l = [48, 49] then run f r (push (.vbool true) st)
        else
          match parseIntD l with
          | some (i, []) => run f r (push (.vint i) st)
          | _ => .error (.badOpcode 73)
      | none => .error .truncated
    | 76 => -- LONG (text, optional trailing L)
      match readLine tl with
      | some (l, r) =>
        let l1 := if l.getLast? = some 76 then l.dropLast else l
        match parseIntD l1 with
        | some (i, []) => run f r (push (.vint i) st)
        | _ => .error (.badOpcode 76)
      | none => .error .truncated
    | 71 => -- BINFLOAT
      match readN 8 tl with
      | some (cs, r) => run f r (push (.vfloat (rdBE cs)) st)
      | none => .error .truncated
    | 70 => -- FLOAT (text; exact decimal values only in this model)
      match readLine tl with
      | some (l, r) =>
        match parseFloatBody l with
        | some (bits, []) => run f r (push (.vfloat bits) st)
        | _ => .error (.badOpcode 70)
      | none => .error .truncated
    | 140 => -- SHORT_BINUNICODE
      match readN 1 tl with
      | some (cs, r) =>
        match readN (rdLE cs) r with
        | some (s, r2) => run f r2 (push (.vstr s) st)
        | none => .error .truncated
      | none => .error .truncated
    | 88 => -- BINUNICODE
      match readN 4 tl with
      | some (cs, r) =>
        match readN (rdLE cs) r with
        | some (s, r2) => run f r2 (push (.vstr s) st)
        | none => .error .truncated
      | none => .error .truncated
    | 141 => -- BINUNICODE8
      match readN 8 tl with
      | some (cs, r) =>
        match readN (rdLE cs) r with
        | some (s, r2) => run f r2 (push (.vstr s) st)
        | none => .error .truncated
      | none => .error .truncated
    | 86 => -- UNICODE (text line)
      match readLine tl with
      | some (l, r) => run f r (push (.vstr l) st)
      | none => .error .truncated
    | 84 => -- BINSTRING
      match readN 4 tl with
      | some (cs, r) =>
        match readN (rdLE cs) r with
        | some (s, r2) => run f r2 (push (.vstr s) st)
        | none => .error .truncated
      | none => .error .truncated
    | 85 => -- SHORT_BINSTRING
      match readN 1 tl with
      | some (cs, r) =>
        match readN (rdLE cs) r with
        | some (s, r2) => run f r2 (push (.vstr s) st)
        | none => .error .truncated
      | none => .error .truncated
    | 67 => -- SHORT_BINBYTES
      match readN 1 tl with
      | some (cs, r) =>
        match readN (rdLE cs) r with
        | some (s, r2) => run f r2 (push (.vbytes s) st)
        | none => .error .truncated
      | none => .error .truncated
    | 66 => -- BINBYTES
      match readN 4 tl with
      | some (cs, r) =>
        match readN (rdLE cs) r with
        | some (s, r2) => run f r2 (push (.vbytes s) st)
        | none => .error .truncated
      | none => .error .truncated
    | 142 => -- BINBYTES8
      match readN 8 tl with
      | some (cs, r) =>
        match readN (rdLE cs) r with
        | some (s, r2) => run f r2 (push (.vbytes s) st)
        | none => .error .truncated
      | none => .error .truncated
    | 41 => run f tl (push (.vtuple []) st) -- EMPTY_TUPLE
    | 133 => -- TUPLE1
      match st.stack with
      | (a, _) :: rest => run f tl { st with stack := (.vtuple [a], none) :: rest }
      | _ => .error (.stackUnderflow 133)
    | 134 => -- TUPLE2
      match st.stack with
      | (b2, _) :: (a, _) :: rest =>
        run f tl { st with stack := (.vtuple [a, b2], none) :: rest }
      | _ => .error (.stackUnderflow 134)
    | 135 => -- TUPLE3
      match st.stack with
      | (c, _) :: (b2, _) :: (a, _) :: rest =>
        run f tl { st with stack := (.vtuple [a, b2, c], none) :: rest }
      | _ => .error (.stackUnderflow 135)
    | 116 => -- TUPLE
      match popMark st with
      | some (items, st1) => run f tl (push (.vtuple items) st1)
      | none => .error (.stackUnderflow 116)
    | 93 => run f tl (push (.vlist []) st) -- EMPTY_LIST
    | 108 => -- LIST
      match popMark st with
      | some (items, st1) => run f tl (push (.vlist items) st1)
      | none => .error (.stackUnderflow 108)
    | 97 => -- APPEND
      match st.stack with
      | (v, _) :: (t, tg) :: rest =>
        match t with
        | .vlist xs =>
          let t1 := Value.vlist (xs ++ [v])
          run f tl { st with stack := (t1, tg) :: rest, memo := patchTag st.memo tg t1 }
        | .vreduce m q as_ s li di =>
          let t1 := Value.vreduce m q as_ s (li ++ [v]) di
          run f tl { st with stack := (t1, tg) :: rest, memo := patchTag st.memo tg t1 }
        | _ => .error (.stackUnderflow 97)
      | _ => .error (.stackUnderflow 97)
    | 101 => -- APPENDS
      match popMark st with
      | some (items, st1) =>
        match st1.stack with
        | (t, tg) :: rest =>
          match t with
          | .vlist xs =>
            let t1 := Value.vlist (xs ++ items)
            run f tl { st1 with stack := (t1, tg) :: rest, memo := patchTag st1.memo tg t1 }
          | .vreduce m q as_ s li di =>
            let t1 := Value.vreduce m q as_ s (li ++ items) di
            run f tl { st1 with stack := (t1, tg) :: rest, memo := patchTag st1.memo tg t1 }
          | _ => .error (.stackUnderflow 101)
        | _ => .error (.stackUnderflow 101)
      | none => .error (.stackUnderflow 101)
    | 125 => run f tl (push (.vdict []) st) -- EMPTY_DICT
    | 100 => -- DICT
      match popMark st with
      | some (items, st1) =>
        match toPairs items with
        | some ps => run f tl (push (.vdict (setItems [] ps)) st1)
        | none => .error (.stackUnderflow 100)
      | none => .error (.stackUnderflow 100)
    | 115 => -- SETITEM
      match st.stack with
      | (v, _) :: (k, _) :: (t, tg) :: rest =>
        match t with
        | .vdict xs =>
          let t1 := Value.vdict (setItemB xs k v)
          run f tl { st with stack := (t1, tg) :: rest, memo := patchTag st.memo tg t1 }
        | .vreduce m q as_ s li di =>
          let t1 := Value.vreduce m q as_ s li (setItemB di k v)
          run f tl { st with stack := (t1, tg) :: rest, memo := patchTag st.memo tg t1 }
        | _ => .error (.stackUnderflow 115)
      | _ => .error (.stackUnderflow 115)
    | 117 => -- SETITEMS
      match popMark st with
      | some (items, st1) =>
        match toPairs items with
        | some ps =>
          match st1.stack with
          | (t, tg) :: rest =>
            match t with
            | .vdict xs =>
              let t1 := Value.vdict (setItems xs ps)
              run f tl { st1 with stack := (t1, tg) :: rest, memo := patchTag st1.memo tg t1 }
            | .vreduce m q as_ s li di =>
              let t1 := Value.vreduce m q as_ s li (setItems di ps)
              run f tl { st1 with stack := (t1, tg) :: rest, memo := patchTag st1.memo tg t1 }
            | _ => .error (.stackUnderflow 117)
          | _ => .error (.stackUnderflow 117)
        | none => .error (.stackUnderflow 117)
      | none => .error (.stackUnderflow 117)
    | 143 => run f tl (push (.vset []) st) -- EMPTY_SET
    | 144 => -- ADDITEMS
      match popMark st with
      | some (items, st1) =>
        match st1.stack with
        | (t, tg) :: rest =>
          match t with
          | .vset xs =>
            let t1 := Value.vset (xs ++ items)
            run f tl { st1 with stack := (t1, tg) :: rest, memo := patchTag st1.memo tg t1 }
          | _ => .error (.stackUnderflow 144)
        | _ => .error (.stackUnderflow 144)
      | none => .error (.stackUnderflow 144)
    | 145 => -- FROZENSET
      match popMark st with
      | some (items, st1) => run f tl (push (.vfset items) st1)
      | none => .error (.stackUnderflow 145)
    | 99 => -- GLOBAL (two text lines)
      match readLine tl with
      | some (m, r) =>
        match readLine r with
        | some (q, r2) => run f r2 (push (.vglobal m q) st)
        | none => .error .truncated
      | none => .error .truncated
    | 147 => -- STACK_GLOBAL
      match st.stack with
      | (.vstr q, _) :: (.vstr m, _) :: rest =>
        run f tl { st with stack := (.vglobal m q, none) :: rest }
      | _ => .error (.stackUnderflow 147)
    | 82 => -- REDUCE
      match st.stack with
      | (.vtuple xs, _) :: (.vglobal m q, _) :: rest =>
        run f tl { st with stack := (.vreduce m q xs none [] [], none) :: rest }
      | _ => .error (.stackUnderflow 82)
    | 129 => -- NEWOBJ
      match st.stack with
      | (.vtuple xs, _) :: (.vglobal m q, _) :: rest =>
        run f tl { st with stack := (.vreduce m q xs none [] [], none) :: rest }
      | _ => .error (.stackUnderflow 129)
    | 146 => -- NEWOBJ_EX (args and kwargs kept in a stable 2-slot shape)
      match st.stack with
      | (.vdict kw, _) :: (.vtuple xs, _) :: (.vglobal m q, _) :: rest =>
        run f tl
          { st with stack := (.vreduce m q [.vtuple xs, .vdict kw] none [] [], none) :: rest }
      | _ => .error (.stackUnderflow 146)
    | 98 => -- BUILD
      match st.stack with
      | (s, _) :: (t, tg) :: rest =>
        match t with
        | .vreduce m q as_ _ li di =>
          let t1 := Value.vreduce m q as_ (some s) li di
          run f tl { st with stack := (t1, tg) :: rest, memo := patchTag st.memo tg t1 }
        | _ => .error (.stackUnderflow 98)
      | _ => .error (.stackUnderflow 98)
    | 105 => -- INST (two text lines plus marked args)
      match readLine tl with
      | some (m, r) =>
        match readLine r with
        | some (q, r2) =>
          match popMark st with
          | some (items, st1) => run f r2 (push (.vreduce m q items none [] []) st1)
          | none => .error (.stackUnderflow 105)
        | none => .error .truncated
      | none => .error .truncated
    | 111 => -- OBJ (marked class plus args)
      match popMark st with
      | some (.vglobal m q :: items, st1) =>
        run f tl (push (.vreduce m q items none [] []) st1)
      | some _ => .error (.stackUnderflow 111)
      | none => .error (.stackUnderflow 111)
    | 80 => -- PERSID (text line)
      match readLine tl with
      | some (l, r) => run f r (push (.vref l none) st)
      | none => .error .truncated
    | 81 => -- BINPERSID
      match st.stack with
      | (p, _) :: rest =>
        match prefOfPid p with
        | some v => run f tl { st with stack := (v, none) :: rest }
        | none => .error (.stackUnderflow 81)
      | _ => .error (.stackUnderflow 81)
    | 148 => -- MEMOIZE
      match st.stack with
      | (v, _) :: rest =>
        let i := st.memo.length
        run f tl { st with stack := (v, some i) :: rest, memo := memoSet st.memo i v }
      | [] => .error (.stackUnderflow 148)
    | 113 => -- BINPUT
      match readN 1 tl with
      | some (cs, r) =>
        match st.stack with
        | (v, _) :: rest =>
          run f r { st with stack := (v, some (rdLE cs)) :: rest,
                            memo := memoSet st.memo (rdLE cs) v }
        | [] => .error (.stackUnderflow 113)
      | none => .error .truncated
    | 114 => -- LONG_BINPUT
      match readN 4 tl with
      | some (cs, r) =>
        match st.stack with
        | (v, _) :: rest =>
          run f r { st with stack := (v, some (rdLE cs)) :: rest,
                            memo := memoSet st.memo (rdLE cs) v }
        | [] => .error (.stackUnderflow 114)
      | none => .error .truncated
    | 112 => -- PUT (text line)
      match readLine tl with
      | some (l, r) =>
        match parseNatD l with
        | some (i, []) =>
          match st.stack with
          | (v, _) :: rest =>
            run f r { st with stack := (v, some i) :: rest, memo := memoSet st.memo i v }
          | [] => .error (.stackUnderflow 112)
        | _ => .error (.badOpcode 112)
      | none => .error .truncated
    | 104 => -- BINGET
      match readN 1 tl with
      | some (cs, r) =>
        match memoGet st.memo (rdLE cs) with
        | some v => run f r { st with stack := (v, some (rdLE cs)) :: st.stack }
        | none => .error (.badMemo (rdLE cs))
      | none => .error .truncated
    | 106 => -- LONG_BINGET
      match readN 4 tl with
      | some (cs, r) =>
        match memoGet st.memo (rdLE cs) with
        | some v => run f r { st with stack := (v, some (rdLE cs)) :: st.stack }
        | none => .error (.badMemo (rdLE cs))
      | none => .error .truncated
    | 103 => -- GET (text line)
      match readLine tl with
      | some (l, r) =>
        match parseNatD l with
        | some (i, []) =>
          match memoGet st.memo i with
          | some v => run f r { st with stack := (v, some i) :: st.stack }
          | none => .error (.badMemo i)
        | _ => .error (.badOpcode 103)
      | none => .error .truncated
    | o => .error (.badOpcode o)

/-- Decode one pickle stream, returning the value and the unconsumed input. -/
def decodeStreamR (bs : List Nat) : DRes :=
  run (bs.length + 1) bs ⟨[], [], [], 0⟩

/-- `decode(bytes) -> (value, bytes_consumed)` (spec §4.1). -/
def decodeStream (bs : List Nat) : Except DErr (Value × Nat) :=
  match decodeStreamR bs with
  | .error e => .error e
  | .ok (v, rest) => .ok (v, bs.length - rest.length)

/-! ### Known-type recognizer (spec §4.2)
Modelled from the spec: a bottom-up rewrite of the decoded tree.  A Reduce
is rewritten to a known-type value when the callable pair and the argument
shape match; the wire blobs are decoded per the datetime library's packing
(year as two big-endian bytes, then month, day, hour, minute, second and a
three-byte microsecond field) and validated against the library's field
ranges, so an unmatched or out-of-range Reduce passes through verbatim.
A Reduce with empty args and only a state becomes a Record envelope. -/

/-- Datetime field validity (the ranges the datetime library enforces). -/
def validDT (y mo d h mi s us : Nat) : Bool :=
  1 ≤ y && y ≤ 9999 && 1 ≤ mo && mo ≤ 12 && 1 ≤ d && d ≤ 31 &&
    h ≤ 23 && mi ≤ 59 && s ≤ 59 && us ≤ 999999

/-- Timezone recognition on already-recognized argument values:
`timezone(timedelta(...))` (whole-minute offsets below a day), the
ecosystem-A UTC singleton and named zones, and ecosystem-B zones. -/
def tzOfValue : Value → Option Tzv
  | .vreduce m q args none [] [] =>
    if m = sb "datetime" ∧ q = sb "timezone" then
      match args with
      | [.vknown (.td d s us)] =>
        let tot := d * 86400 + s
        if us = 0 ∧ tot % 60 = 0 ∧ -1440 < tot / 60 ∧ tot / 60 < 1440 then
          some (.off (tot / 60))
        else none
      | [.vknown (.td d s us), .vstr _] =>
        let tot := d * 86400 + s
        if us = 0 ∧ tot % 60 = 0 ∧ -1440 < tot / 60 ∧ tot / 60 < 1440 then
          some (.off (tot / 60))
        else none
      | _ => none
    else if m = sb "pytz" ∧ q = sb "_UTC" then
      match args with
      | [] => some (.off 0)
      | _ => none
    else if m = sb "pytz" ∧ q = sb "_p" then
      match args with
      | [.vstr n] => some (.pytz n)
      | [.vstr n, .vint _, .vint _, .vstr _] => some (.pytz n)
      | _ => none
    else if m = sb "zoneinfo" ∧ q = sb "ZoneInfo" then
      match args with
      | [.vstr n] => some (.zinfo n)
      | _ => none
    else none
  | _ => none

/-- Fields of a 10-byte datetime wire blob. -/
def unpackDT (b : List Nat) : Nat × Nat × Nat × Nat × Nat × Nat × Nat :=
  match b with
  | [y1, y2, mo, d, h, mi, s, u1, u2, u3] =>
    (y1 * 256 + y2, mo, d, h, mi, s, u1 * 65536 + u2 * 256 + u3)
  | _ => (0, 0, 0, 0, 0, 0, 0)

/-- Rewrite one already-recursed Reduce node (spec §4.2 table, then the
Record envelope rule). -/
def recNode (m q : List Nat) (args : List Value) (st : Option Value)
    (li : List Value) (di : List (Value × Value)) : Value :=
  let keep : Value := .vreduce m q args st li di
  match st, li, di with
  | some s, [], [] =>
    match args with
    | [] =>
      if m = sb "uuid" ∧ q = sb "UUID" then
        match s with
        | .vdict [(.vstr k, .vint n)] =>
          if k = sb "int" ∧ 0 ≤ n ∧ n < 2 ^ 128 then .vknown (.uuid n.toNat) else keep
        | _ => keep
      else .vrecord m q s
    | _ :: _ => keep
  | none, [], [] =>
    if m = sb "builtins" ∧ q = sb "set" then
      match args with
      | [.vlist xs] => .vset xs
      | _ => keep
    else if m = sb "builtins" ∧ q = sb "frozenset" then
      match args with
      | [.vlist xs] => .vfset xs
      | _ => keep
    else if m = sb "datetime" ∧ q = sb "datetime" then
      match args with
      | [.vbytes b] =>
        if b.length = 10 then
          match unpackDT b with
          | (y, mo, d, h, mi, s, us) =>
            if validDT y mo d h mi s us then .vknown (.dt y mo d h mi s us none) else keep
        else keep
      | [.vbytes b, tzv] =>
        if b.length = 10 then
          match tzOfValue tzv with
          | some tz =>
            match unpackDT b with
            | (y, mo, d, h, mi, s, us) =>
              if validDT y mo d h mi s us then .vknown (.dt y mo d h mi s us (some tz))
              else keep
          | none => keep
        else keep
      | _ => keep
    else if m = sb "datetime" ∧ q = sb "date" then
      match args with
      | [.vbytes [y1, y2, mo, d]] =>
        let y := y1 * 256 + y2
        if validDT y mo d 0 0 0 0 then .vknown (.date y mo d) else keep
      | _ => keep
    else if m = sb "datetime" ∧ q = sb "time" then
      match args with
      | [.vbytes [h, mi, s, u1, u2, u3]] =>
        let us := u1 * 65536 + u2 * 256 + u3
        if validDT 1 1 1 h mi s us then .vknown (.time h mi s us none) else keep
      | [.vbytes [h, mi, s, u1, u2, u3], tzv] =>
        let us := u1 * 65536 + u2 * 256 + u3
        match tzOfValue tzv with
        | some tz =>
          if validDT 1 1 1 h mi s us then .vknown (.time h mi s us (some tz)) else keep
        | none => keep
      | _ => keep
    else if m = sb "datetime" ∧ q = sb "timedelta" then
      match args with
      | [.vint d, .vint s, .vint us] => .vknown (.td d s us)
      | _ => keep
    else if m = sb "decimal" ∧ q = sb "Decimal" then
      match args with
      | [.vstr s] => .vknown (.dec s)
      | _ => keep
    else if m = sb "uuid" ∧ q = sb "UUID" then
      match args with
      | [.vint n] =>
        if 0 ≤ n ∧ n < 2 ^ 128 then .vknown (.uuid n.toNat) else keep
      | _ => keep
    else keep
  | _, _, _ => keep

mutual

/-- Bottom-up known-type and record recognition. -/
def recognize : Value → Value
  | .vlist xs => .vlist (recognizeL xs)
  | .vtuple xs => .vtuple (recognizeL xs)
  | .vdict xs => .vdict (recognizeP xs)
  | .vset xs => .vset (recognizeL xs)
  | .vfset xs => .vfset (recognizeL xs)
  | .vreduce m q args st li di =>
    recNode m q (recognizeL args) (recognizeO st) (recognizeL li) (recognizeP di)
  | .vrecord m q s => .vrecord m q (recognize s)
  | v => v

/-- Recognition over value lists. -/
def recognizeL : List Value → List Value
  | [] => []
  | x :: tl => recognize x :: recognizeL tl

/-- Recognition over value-pair lists. -/
def recognizeP : List (Value × Value) → List (Value × Value)
  | [] => []
  | (k, v) :: tl => (recognize k, recognize v) :: recognizeP tl

/-- Recognition over optional values. -/
def recognizeO : Option Value → Option Value
  | none => none
  | some v => some (recognize v)

end

/-! ### Canonical wire forms (spec §4.5 known-type table, inverse direction)
`lower` maps a model value to the exact value the decoder yields after the
encoder has emitted it: known types and records to their canonical Reduce
forms, sets to the protocol-3 `builtins.set` Reduce, and persistent-ref
class hints through the encoder's split at the last dot followed by the
decoder's rejoin. -/

/-- The 10-byte datetime wire blob for given fields. -/
def packDT (y mo d h mi s us : Nat) : List Nat :=
  [y / 256 % 256, y % 256, mo % 256, d % 256, h % 256, mi % 256, s % 256,
   us / 65536 % 256, us / 256 % 256, us % 256]

/-- The 6-byte time wire blob. -/
def packTime (h mi s us : Nat) : List Nat :=
  [h % 256, mi % 256, s % 256, us / 65536 % 256, us / 256 % 256, us % 256]

/-- Normalized timedelta components for a whole-minute offset (days in
`{0, -1}`, seconds in `[0, 86400)`, as the datetime library pickles them). -/
def tdOfMinutes (min : Int) : Int × Int :=
  if 0 ≤ min then (0, min * 60) else (-1, 86400 + min * 60)

/-- Canonical Reduce form of a timedelta. -/
def canonTd (d s us : Int) : Value :=
  .vreduce (sb "datetime") (sb "timedelta") [.vint d, .vint s, .vint us] none [] []

/-- Canonical Reduce form of a timezone payload. -/
def canonTz : Tzv → Value
  | .off min =>
    match tdOfMinutes min with
    | (d, s) => .vreduce (sb "datetime") (sb "timezone") [canonTd d s 0] none [] []
  | .pytz n => .vreduce (sb "pytz") (sb "_p") [.vstr n] none [] []
  | .zinfo n => .vreduce (sb "zoneinfo") (sb "ZoneInfo") [.vstr n] none [] []

/-- Canonical Reduce form of a known-type value. -/
def canonK : Known → Value
  | .dt y mo d h mi s us tz =>
    .vreduce (sb "datetime") (sb "datetime")
      (.vbytes (packDT y mo d h mi s us) ::
        (match tz with | none => [] | some t => [canonTz t])) none [] []
  | .date y mo d =>
    .vreduce (sb "datetime") (sb "date")
      [.vbytes [y / 256 % 256, y % 256, mo % 256, d % 256]] none [] []
  | .time h mi s us tz =>
    .vreduce (sb "datetime") (sb "time")
      (.vbytes (packTime h mi s us) ::
        (match tz with | none => [] | some t => [canonTz t])) none [] []
  | .td d s us => canonTd d s us
  | .dec s => .vreduce (sb "decimal") (sb "Decimal") [.vstr s] none [] []
  | .uuid n => .vreduce (sb "uuid") (sb "UUID") [.vint n] none [] []

/-- Split a joined class hint at its last dot (module part, class part). -/
def splitLastDot (s : List Nat) : List Nat × List Nat :=
  match s with
  | [] => ([], [])
  | c :: tl =>
    if 46 ∈ tl then
      match splitLastDot tl with
      | (a, b) => (c :: a, b)
    else if c = 46 then ([], tl)
    else
      match splitLastDot tl with
      | (a, b) => (c :: a, b)

/-- The hint the decoder rebuilds after the encoder split it. -/
def rejoinHint (h : List Nat) : List Nat :=
  match splitLastDot h with
  | (a, b) => a ++ 46 :: b

mutual

/-- The value the decoder yields for the encoder's emission of `v`. -/
def lower : Value → Value
  | .vlist xs => .vlist (lowerL xs)
  | .vtuple xs => .vtuple (lowerL xs)
  | .vdict xs => .vdict (lowerP xs)
  | .vset xs => .vreduce (sb "builtins") (sb "set") [.vlist (lowerL xs)] none [] []
  | .vfset xs => .vreduce (sb "builtins") (sb "frozenset") [.vlist (lowerL xs)] none [] []
  | .vreduce m q args st li di =>
    .vreduce m q (lowerL args) (lowerO st) (lowerL li) (lowerP di)
  | .vknown k => canonK k
  | .vrecord m q s => .vreduce m q [] (some (lower s)) [] []
  | .vref oid h => .vref oid (h.map rejoinHint)
  | v => v

/-- Lowering over value lists. -/
def lowerL : List Value → List Value
  | [] => []
  | x :: tl => lower x :: lowerL tl

/-- Lowering over value-pair lists. -/
def lowerP : List (Value × Value) → List (Value × Value)
  | [] => []
  | (k, v) :: tl => (lower k, lower v) :: lowerP tl

/-- Lowering over optional values. -/
def lowerO : Option Value → Option Value
  | none => none
  | some v => some (lower v)

end

/-! ### JSON model (spec §3.1 right column)
The in-memory JSON tree `decode_zodb_record`/`pickle_to_dict` return.
Numbers keep their integer/float disposition; strings are UTF-8 byte
lists; objects are ordered key/value lists. -/

/-- JSON values. -/
inductive JValue where
  | jnull
  | jbool (b : Bool)
  | jint (n : Int)
  | jfloat (bits : Nat)
  | jstr (s : List Nat)
  | jarr (xs : List JValue)
  | jobj (xs : List (List Nat × JValue))

/-- The reserved marker keys (spec §3.2), exactly. -/
def reservedKeys : List (List Nat) :=
  [sb "@t", sb "@b", sb "@d", sb "@bi", sb "@f", sb "@set", sb "@fset", sb "@g",
   sb "@ref", sb "@reduce", sb "@dt", sb "@date", sb "@time", sb "@td", sb "@dec",
   sb "@uuid", sb "@tz", sb "@cls", sb "@s", sb "@kv", sb "@ks", sb "@children",
   sb "@first"]

/-- Zero-padded decimal text with (at least) `k` digits. -/
def padK (k n : Nat) : List Nat := padDec k n

/-- ISO date text `YYYY-MM-DD`. -/
def isoDate (y mo d : Nat) : List Nat :=
  padK 4 y ++ 45 :: padK 2 mo ++ 45 :: padK 2 d

/-- ISO time text `HH:MM:SS[.ffffff]`. -/
def isoTime (h mi s us : Nat) : List Nat :=
  padK 2 h ++ 58 :: padK 2 mi ++ 58 :: padK 2 s ++
    (if us = 0 then [] else 46 :: padK 6 us)

/-- `±HH:MM` offset suffix for a whole-minute UTC offset. -/
def offText (min : Int) : List Nat :=
  (if min < 0 then 45 else 43) ::
    padK 2 (min.natAbs / 60) ++ 58 :: padK 2 (min.natAbs % 60)

/-- Canonical 8-4-4-4-12 UUID text of a 128-bit value. -/
def uuidText (n : Nat) : List Nat :=
  let h := hexOfBytes (wrBE 16 n)
  h.take 8 ++ 45 :: (h.drop 8).take 4 ++ 45 :: (h.drop 12).take 4 ++
    45 :: (h.drop 16).take 4 ++ 45 :: h.drop 20

/-- Does a byte string begin with `@`? -/
def isAt (s : List Nat) : Bool := s.head? = some 64

/-- Does `s` start with `p`? -/
def startsW (p s : List Nat) : Bool := decide (s.take p.length = p)

/-- Does `s` end with `p`? -/
def endsW (p s : List Nat) : Bool := decide (s.drop (s.length - p.length) = p ∧ p.length ≤ s.length)

/-- BTree-class recognition by module prefix and class-name suffix
(spec §4.3): `some (fourLevels, keyValue)`. -/
def btreeKind (m q : List Nat) : Option (Bool × Bool) :=
  if startsW (sb "BTrees.") m then
    if endsW (sb "BTree") q then some (true, true)
    else if endsW (sb "TreeSet") q then some (true, false)
    else if endsW (sb "Bucket") q then some (false, true)
    else if endsW (sb "Set") q then some (false, false)
    else none
  else none

/-- Is a (written) JSON value a persistent reference? -/
def isRefJ : JValue → Bool
  | .jobj ((k, _) :: _) => decide (k = sb "@ref")
  | _ => false

/-- Odd-length alternation `[ref, key, ref, …, ref]` (spec §4.3). -/
def altRefsJ : List JValue → Bool
  | [r] => isRefJ r
  | r :: _ :: tl => isRefJ r && altRefsJ tl
  | [] => false

/-- The element list of a written tuple marker. -/
def tupJ : JValue → Option (List JValue)
  | .jobj [(k, .jarr xs)] => if k = sb "@t" then some xs else none
  | _ => none

/-- Group an even run into `[[k,v],…]` entries (`none` if odd). -/
def kvJ : List JValue → Option (List JValue)
  | [] => some []
  | k :: v :: tl => (kvJ tl).map (.jarr [k, v] :: ·)
  | [_] => none

/-- Ungroup `[[k,v],…]` entries back into a flat run. -/
def unkvJ : List JValue → Option (List JValue)
  | [] => some []
  | .jarr [k, v] :: tl => (unkvJ tl).map fun r => k :: v :: r
  | _ => none

/-- `n+1` nested single-element tuple markers around a flat run. -/
def nestT : Nat → List JValue → JValue
  | 0, flat => .jobj [(sb "@t", .jarr flat)]
  | n + 1, flat => .jobj [(sb "@t", .jarr [nestT n flat])]

/-- The flattened leaf run: key-value pairs under `@kv`, or a bare key
run under `@ks`. -/
def flatSmallKV (kv : Bool) (flat : List JValue) : Option JValue :=
  if kv then (kvJ flat).map fun ps => .jobj [(sb "@kv", .jarr ps)]
  else some (.jobj [(sb "@ks", .jarr flat)])

/-- Recognize the small-tree nesting (four levels, or two for buckets)
around a flat run. -/
def flatSmall (four kv : Bool) (j : JValue) : Option JValue :=
  match tupJ j with
  | some l1 =>
    if four then
      match l1 with
      | [x1] =>
        match tupJ x1 with
        | some [x2] =>
          match tupJ x2 with
          | some [x3] =>
            match tupJ x3 with
            | some flat => flatSmallKV kv flat
            | none => none
          | _ => none
        | _ => none
      | _ => none
    else
      match l1 with
      | [x1] =>
        match tupJ x1 with
        | some flat => flatSmallKV kv flat
        | none => none
      | _ => none
  | none => none

/-- Recognize the large-tree `(children, firstbucket)` shape. -/
def flatBig (four : Bool) (j : JValue) : JValue :=
  if four then
    match tupJ j with
    | some [c, fb] =>
      match tupJ c with
      | some arr =>
        if altRefsJ arr && isRefJ fb then
          .jobj [(sb "@children", .jarr arr), (sb "@first", fb)]
        else j
      | none => j
    | _ => j
  else j

/-- BTree state flattening (spec §4.3), applied to the already-written
state of a record: rewrites the recognized nesting shapes to
`@kv`/`@ks`/`@children`/`@first` and leaves everything else unchanged. -/
def flatState (m q : List Nat) (j : JValue) : JValue :=
  match btreeKind m q with
  | none => j
  | some (four, kv) =>
    match flatSmall four kv j with
    | some r => r
    | none => flatBig four j

/-- BTree state unflattening (spec §4.3): rebuild four nesting levels for
`BTree`/`TreeSet` classes and two for `Bucket`/`Set`. -/
def unflatState (m q : List Nat) (j : JValue) : JValue :=
  match btreeKind m q with
  | none => j
  | some (four, _) =>
    match j with
    | .jobj [(k, .jarr ps)] =>
      if k = sb "@kv" then
        match unkvJ ps with
        | some flat => nestT (if four then 3 else 1) flat
        | none => j
      else if k = sb "@ks" then nestT (if four then 3 else 1) ps
      else j
    | .jobj [(k1, .jarr arr), (k2, fb)] =>
      if k1 = sb "@children" ∧ k2 = sb "@first" then
        .jobj [(sb "@t", .jarr [.jobj [(sb "@t", .jarr arr)], fb])]
      else j
    | _ => j

/-! ### JSON writer (spec §3.1, §4.3, §4.5)
Modelled from the spec: serializes the value model with the marker
conventions, materializing shared substructure.  A dictionary is a plain
JSON object only when every key is a string that does not begin with `@`;
otherwise the unambiguous `@d` pair-list form is used. -/

/-- May a dict be written as a plain JSON object? -/
def plainKeys : List (Value × Value) → Bool
  | [] => true
  | (.vstr s, _) :: tl => !isAt s && plainKeys tl
  | _ => false

/-- The `@tz` companion entry for a named zone (empty for offsets, which
are carried in the ISO suffix instead). -/
def writeTzObj : Tzv → List (List Nat × JValue)
  | .pytz n => [(sb "@tz", .jobj [(sb "name", .jstr n)])]
  | .zinfo n => [(sb "@tz", .jobj [(sb "zoneinfo", .jstr n)])]
  | .off _ => []

/-- Marker object of a known-type value (spec §4.2 right column). -/
def writeK : Known → JValue
  | .dt y mo d h mi s us tz =>
    match tz with
    | none => .jobj [(sb "@dt", .jstr (isoDate y mo d ++ 84 :: isoTime h mi s us))]
    | some (.off min) =>
      .jobj [(sb "@dt", .jstr (isoDate y mo d ++ 84 :: isoTime h mi s us ++ offText min))]
    | some t =>
      .jobj ((sb "@dt", .jstr (isoDate y mo d ++ 84 :: isoTime h mi s us)) :: writeTzObj t)
  | .date y mo d => .jobj [(sb "@date", .jstr (isoDate y mo d))]
  | .time h mi s us tz =>
    match tz with
    | none => .jobj [(sb "@time", .jstr (isoTime h mi s us))]
    | some (.off min) => .jobj [(sb "@time", .jstr (isoTime h mi s us ++ offText min))]
    | some t => .jobj ((sb "@time", .jstr (isoTime h mi s us)) :: writeTzObj t)
  | .td d s us => .jobj [(sb "@td", .jarr [.jint d, .jint s, .jint us])]
  | .dec s => .jobj [(sb "@dec", .jstr s)]
  | .uuid n => .jobj [(sb "@uuid", .jstr (uuidText n))]

mutual

/-- Serialize a model value to the JSON tree. -/
def writeJ : Value → JValue
  | .vnone => .jnull
  | .vbool b => .jbool b
  | .vint n =>
    if -(2 ^ 63) ≤ n ∧ n < 2 ^ 63 then .jint n
    else .jobj [(sb "@bi", .jstr (decInt n))]
  | .vfloat bits =>
    if bits / 2 ^ 52 % 2048 = 2047 then
      if bits % 2 ^ 52 ≠ 0 then .jobj [(sb "@f", .jstr (sb "nan"))]
      else if 2 ^ 63 ≤ bits % 2 ^ 64 then .jobj [(sb "@f", .jstr (sb "-inf"))]
      else .jobj [(sb "@f", .jstr (sb "inf"))]
    else .jfloat bits
  | .vstr s => .jstr s
  | .vbytes bs => .jobj [(sb "@b", .jstr (b64e bs))]
  | .vlist xs => .jarr (writeJL xs)
  | .vtuple xs => .jobj [(sb "@t", .jarr (writeJL xs))]
  | .vdict ps =>
    if plainKeys ps then .jobj (writeObjL ps)
    else .jobj [(sb "@d", .jarr (writePairs ps))]
  | .vset xs => .jobj [(sb "@set", .jarr (writeJL xs))]
  | .vfset xs => .jobj [(sb "@fset", .jarr (writeJL xs))]
  | .vglobal m q => .jobj [(sb "@g", .jarr [.jstr m, .jstr q])]
  | .vref oid h =>
    .jobj [(sb "@ref",
      match h with
      | none => .jstr (hexOfBytes oid)
      | some hh => .jarr [.jstr (hexOfBytes oid), .jstr hh])]
  | .vreduce m q args st li di =>
    .jobj [(sb "@reduce", .jobj (
      (sb "f", .jarr [.jstr m, .jstr q]) ::
      (sb "args", .jarr (writeJL args)) ::
      (writeJSt st ++ writeJLi li ++ writeJDi di)))]
  | .vknown k => writeK k
  | .vrecord m q s =>
    .jobj [(sb "@cls", .jarr [.jstr m, .jstr q]),
           (sb "@s", flatState m q (writeJ s))]

/-- The optional `state` entry of a written Reduce. -/
def writeJSt : Option Value → List (List Nat × JValue)
  | none => []
  | some s => [(sb "state", writeJ s)]

/-- The optional `li` entry of a written Reduce. -/
def writeJLi : List Value → List (List Nat × JValue)
  | [] => []
  | x :: tl => [(sb "li", .jarr (writeJ x :: writeJL tl))]

/-- The optional `di` entry of a written Reduce. -/
def writeJDi : List (Value × Value) → List (List Nat × JValue)
  | [] => []
  | (a, b) :: tl => [(sb "di", .jarr (.jarr [writeJ a, writeJ b] :: writePairs tl))]

/-- Serialize a value list. -/
def writeJL : List Value → List JValue
  | [] => []
  | x :: tl => writeJ x :: writeJL tl

/-- Serialize a plain-keyed dict body. -/
def writeObjL : List (Value × Value) → List (List Nat × JValue)
  | [] => []
  | (.vstr s, v) :: tl => (s, writeJ v) :: writeObjL tl
  | (_, v) :: tl => ([], writeJ v) :: writeObjL tl

/-- Serialize a pair list as `[[k,v],…]`. -/
def writePairs : List (Value × Value) → List JValue
  | [] => []
  | (k, v) :: tl => .jarr [writeJ k, writeJ v] :: writePairs tl

end

/-! ### JSON reader (spec §4.5)
Modelled from the spec: parses the JSON tree back into the value model.
For each object the first key is checked against the marker set; a mixed
object is `MixedMarker`, an unreserved `@` key is `UnknownMarker`, a
malformed marker payload is `BadMarkerShape`.  The reader is fuel-based
(the fuel is a size bound computed from the input; running out reports
`DepthExceeded`). -/

/-- Canonical quiet-NaN pattern. -/
def nanBits : Nat := 9221120237041090560

/-- Positive-infinity pattern. -/
def infBits : Nat := 9218868437227405312

/-- Negative-infinity pattern. -/
def ninfBits : Nat := 18442240474082181120

/-- Parse exactly two decimal digits. -/
def parse2 : List Nat → Option (Nat × List Nat)
  | a :: b :: r =>
    if 48 ≤ a ∧ a ≤ 57 ∧ 48 ≤ b ∧ b ≤ 57 then some ((a - 48) * 10 + (b - 48), r)
    else none
  | _ => none

/-- Parse exactly four decimal digits. -/
def parse4 (bs : List Nat) : Option (Nat × List Nat) :=
  match parse2 bs with
  | some (hi, r) =>
    match parse2 r with
    | some (lo, r2) => some (hi * 100 + lo, r2)
    | none => none
  | none => none

/-- Parse exactly six decimal digits. -/
def parse6 (bs : List Nat) : Option (Nat × List Nat) :=
  match parse4 bs with
  | some (hi, r) =>
    match parse2 r with
    | some (lo, r2) => some (hi * 100 + lo, r2)
    | none => none
  | none => none

/-- Require one byte. -/
def expectB (c : Nat) : List Nat → Option (List Nat)
  | b :: r => if b = c then some r else none
  | [] => none

/-- Parse `YYYY-MM-DD`. -/
def parseIsoDate (bs : List Nat) : Option ((Nat × Nat × Nat) × List Nat) :=
  match parse4 bs with
  | some (y, r1) =>
    match expectB 45 r1 with
    | some r2 =>
      match parse2 r2 with
      | some (mo, r3) =>
        match expectB 45 r3 with
        | some r4 =>
          match parse2 r4 with
          | some (d, r5) => some ((y, mo, d), r5)
          | none => none
        | none => none
      | none => none
    | none => none
  | none => none

/-- Parse `HH:MM:SS[.ffffff]`. -/
def parseIsoTime (bs : List Nat) : Option ((Nat × Nat × Nat × Nat) × List Nat) :=
  match parse2 bs with
  | some (h, r1) =>
    match expectB 58 r1 with
    | some r2 =>
      match parse2 r2 with
      | some (mi, r3) =>
        match expectB 58 r3 with
        | some r4 =>
          match parse2 r4 with
          | some (s, r5) =>
            match r5 with
            | 46 :: r6 =>
              match parse6 r6 with
              | some (us, r7) => some ((h, mi, s, us), r7)
              | none => none
            | _ => some ((h, mi, s, 0), r5)
          | none => none
        | none => none
      | none => none
    | none => none
  | none => none

/-- Parse an optional `±HH:MM` offset suffix (must consume the rest). -/
def parseOffSuffix : List Nat → Option (Option Tzv)
  | [] => some none
  | 43 :: r =>
    match parse2 r with
    | some (h, r1) =>
      match expectB 58 r1 with
      | some r2 =>
        match parse2 r2 with
        | some (mi, []) => some (some (.off ((h * 60 + mi : Nat))))
        | _ => none
      | none => none
    | none => none
  | 45 :: r =>
    match parse2 r with
    | some (h, r1) =>
      match expectB 58 r1 with
      | some r2 =>
        match parse2 r2 with
        | some (mi, []) => some (some (.off (-((h * 60 + mi : Nat) : Int))))
        | _ => none
      | none => none
    | none => none
  | _ => none

/-- Parse canonical 8-4-4-4-12 UUID text into its 128-bit value. -/
def parseUuid (s : List Nat) : Option Nat :=
  if s.length = 36 ∧ s.get? 8 = some 45 ∧ s.get? 13 = some 45 ∧
      s.get? 18 = some 45 ∧ s.get? 23 = some 45 then
    match bytesOfHex (s.take 8 ++ (s.drop 9).take 4 ++ (s.drop 14).take 4 ++
        (s.drop 19).take 4 ++ s.drop 24) with
    | some bs => some (rdBE bs)
    | none => none
  else none

/-- Parse the `@tz` companion object. -/
def parseTzObj : JValue → Option Tzv
  | .jobj [(k, .jstr n)] =>
    if k = sb "name" then some (.pytz n)
    else if k = sb "zoneinfo" then some (.zinfo n)
    else none
  | _ => none

mutual

/-- Fueled JSON reader. -/
def readJF : Nat → JValue → Except DErr Value
  | 0, _ => .error .depthExceeded
  | f + 1, j =>
    match j with
    | .jnull => .ok .vnone
    | .jbool b => .ok (.vbool b)
    | .jint n => .ok (.vint n)
    | .jfloat bits => .ok (.vfloat bits)
    | .jstr s => .ok (.vstr s)
    | .jarr xs => (readJLF f xs).map .vlist
    | .jobj [] => .ok (.vdict [])
    | .jobj ((k, v) :: rest) =>
      if isAt k then
        if k = sb "@t" then
          match v, rest with
          | .jarr xs, [] => (readJLF f xs).map .vtuple
          | _, _ :: _ => .error (.mixedMarker k)
          | _, _ => .error (.badMarkerShape k)
        else if k = sb "@b" then
          match v, rest with
          | .jstr s, [] =>
            match b64d s with
            | some bs => .ok (.vbytes bs)
            | none => .error (.badMarkerShape k)
          | _, _ :: _ => .error (.mixedMarker k)
          | _, _ => .error (.badMarkerShape k)
        else if k = sb "@bi" then
          match v, rest with
          | .jstr s, [] =>
            match parseIntD s with
            | some (n, []) => .ok (.vint n)
            | _ => .error (.badMarkerShape k)
          | _, _ :: _ => .error (.mixedMarker k)
          | _, _ => .error (.badMarkerShape k)
        else if k = sb "@f" then
          match v, rest with
          | .jstr s, [] =>
            if s = sb "nan" then .ok (.vfloat nanBits)
            else if s = sb "inf" then .ok (.vfloat infBits)
            else if s = sb "-inf" then .ok (.vfloat ninfBits)
            else .error (.badMarkerShape k)
          | _, _ :: _ => .error (.mixedMarker k)
          | _, _ => .error (.badMarkerShape k)
        else if k = sb "@d" then
          match v, rest with
          | .jarr ps, [] => (readDP f ps).map .vdict
          | _, _ :: _ => .error (.mixedMarker k)
          | _, _ => .error (.badMarkerShape k)
        else if k = sb "@set" then
          match v, rest with
          | .jarr xs, [] => (readJLF f xs).map .vset
          | _, _ :: _ => .error (.mixedMarker k)
          | _, _ => .error (.badMarkerShape k)
        else if k = sb "@fset" then
          match v, rest with
          | .jarr xs, [] => (readJLF f xs).map .vfset
          | _, _ :: _ => .error (.mixedMarker k)
          | _, _ => .error (.badMarkerShape k)
        else if k = sb "@g" then
          match v, rest with
          | .jarr [.jstr m, .jstr q], [] => .ok (.vglobal m q)
          | _, _ :: _ => .error (.mixedMarker k)
          | _, _ => .error (.badMarkerShape k)
        else if k = sb "@ref" then
          match v, rest with
          | .jstr h, [] =>
            match bytesOfHex h with
            | some oid => .ok (.vref oid none)
            | none => .error (.badMarkerShape k)
          | .jarr [.jstr h, .jstr hint], [] =>
            match bytesOfHex h with
            | some oid => .ok (.vref oid (some hint))
            | none => .error (.badMarkerShape k)
          | _, _ :: _ => .error (.mixedMarker k)
          | _, _ => .error (.badMarkerShape k)
        else if k = sb "@dt" then
          match v with
          | .jstr s =>
            match parseIsoDate s with
            | some ((y, mo, d), r1) =>
              match expectB 84 r1 with
              | some r2 =>
                match parseIsoTime r2 with
                | some ((h, mi, se, us), r3) =>
                  match rest with
                  | [] =>
                    match parseOffSuffix r3 with
                    | some tz => .ok (.vknown (.dt y mo d h mi se us tz))
                    | none => .error (.badMarkerShape k)
                  | [(k2, tzj)] =>
                    if k2 = sb "@tz" ∧ r3 = [] then
                      match parseTzObj tzj with
                      | some tz => .ok (.vknown (.dt y mo d h mi se us (some tz)))
                      | none => .error (.badMarkerShape (sb "@tz"))
                    else .error (.mixedMarker k2)
                  | _ => .error (.mixedMarker k)
                | none => .error (.badMarkerShape k)
              | none => .error (.badMarkerShape k)
            | none => .error (.badMarkerShape k)
          | _ => .error (.badMarkerShape k)
        else if k = sb "@date" then
          match v, rest with
          | .jstr s, [] =>
            match parseIsoDate s with
            | some ((y, mo, d), []) => .ok (.vknown (.date y mo d))
            | _ => .error (.badMarkerShape k)
          | _, _ :: _ => .error (.mixedMarker k)
          | _, _ => .error (.badMarkerShape k)
        else if k = sb "@time" then
          match v with
          | .jstr s =>
            match parseIsoTime s with
            | some ((h, mi, se, us), r3) =>
              match rest with
              | [] =>
                match parseOffSuffix r3 with
                | some tz => .ok (.vknown (.time h mi se us tz))
                | none => .error (.badMarkerShape k)
              | [(k2, tzj)] =>
                if k2 = sb "@tz" ∧ r3 = [] then
                  match parseTzObj tzj with
                  | some tz => .ok (.vknown (.time h mi se us (some tz)))
                  | none => .error (.badMarkerShape (sb "@tz"))
                else .error (.mixedMarker k2)
              | _ => .error (.mixedMarker k)
            | none => .error (.badMarkerShape k)
          | _ => .error (.badMarkerShape k)
        else if k = sb "@td" then
          match v, rest with
          | .jarr [.jint d, .jint s, .jint us], [] => .ok (.vknown (.td d s us))
          | _, _ :: _ => .error (.mixedMarker k)
          | _, _ => .error (.badMarkerShape k)
        else if k = sb "@dec" then
          match v, rest with
          | .jstr s, [] => .ok (.vknown (.dec s))
          | _, _ :: _ => .error (.mixedMarker k)
          | _, _ => .error (.badMarkerShape k)
        else if k = sb "@uuid" then
          match v, rest with
          | .jstr s, [] =>
            match parseUuid s with
            | some n => .ok (.vknown (.uuid n))
            | none => .error (.badMarkerShape k)
          | _, _ :: _ => .error (.mixedMarker k)
          | _, _ => .error (.badMarkerShape k)
        else if k = sb "@reduce" then
          match v, rest with
          | .jobj ((kf, .jarr [.jstr m, .jstr q]) :: (ka, .jarr as_) :: r2), [] =>
            if kf = sb "f" ∧ ka = sb "args" then
              let stp : Option JValue × List (List Nat × JValue) :=
                match r2 with
                | (k2, sv) :: rr => if k2 = sb "state" then (some sv, rr) else (none, r2)
                | [] => (none, [])
              match stp with
              | (stJ, r3) =>
                let lip : Option (List JValue) × List (List Nat × JValue) :=
                  match r3 with
                  | (k3, .jarr ls) :: rr => if k3 = sb "li" then (some ls, rr) else (none, r3)
                  | _ => (none, r3)
                match lip with
                | (liJ, r4) =>
                  let dip : Option (List JValue) × List (List Nat × JValue) :=
                    match r4 with
                    | (k4, .jarr ds) :: rr => if k4 = sb "di" then (some ds, rr) else (none, r4)
                    | _ => (none, r4)
                  match dip with
                  | (diJ, []) =>
                    match readJLF f as_ with
                    | .error e => .error e
                    | .ok args =>
                      match (match stJ with
                             | none => Except.ok (Option.none)
                             | some sv => (readJF f sv).map Option.some) with
                      | .error e => .error e
                      | .ok st =>
                        match readJLF f (liJ.getD []) with
                        | .error e => .error e
                        | .ok li =>
                          match readDP f (diJ.getD []) with
                          | .error e => .error e
                          | .ok di => .ok (.vreduce m q args st li di)
                  | (_, _ :: _) => .error (.badMarkerShape k)
            else .error (.badMarkerShape k)
          | _, _ :: _ => .error (.mixedMarker k)
          | _, _ => .error (.badMarkerShape k)
        else if k = sb "@cls" then
          match v, rest with
          | .jarr [.jstr m, .jstr q], [(k2, sj)] =>
            if k2 = sb "@s" then
              (readJF f (unflatState m q sj)).map (.vrecord m q)
            else .error (.mixedMarker k2)
          | _, _ => .error (.badMarkerShape k)
        else if k ∈ reservedKeys then .error (.badMarkerShape k)
        else .error (.unknownMarker k)
      else (readObjF f ((k, v) :: rest)).map .vdict

/-- Fueled element-list reader. -/
def readJLF : Nat → List JValue → Except DErr (List Value)
  | 0, _ => .error .depthExceeded
  | _ + 1, [] => .ok []
  | f + 1, x :: tl =>
    match readJF f x with
    | .error e => .error e
    | .ok v =>
      match readJLF f tl with
      | .error e => .error e
      | .ok vs => .ok (v :: vs)

/-- Fueled `[[k,v],…]` pair-list reader. -/
def readDP : Nat → List JValue → Except DErr (List (Value × Value))
  | 0, _ => .error .depthExceeded
  | _ + 1, [] => .ok []
  | f + 1, .jarr [kj, vj] :: tl =>
    match readJF f kj with
    | .error e => .error e
    | .ok kk =>
      match readJF f vj with
      | .error e => .error e
      | .ok vv =>
        match readDP f tl with
        | .error e => .error e
        | .ok r => .ok ((kk, vv) :: r)
  | _ + 1, _ => .error (.badMarkerShape (sb "@d"))

/-- Fueled plain-object reader (all keys must be ordinary). -/
def readObjF : Nat → List (List Nat × JValue) → Except DErr (List (Value × Value))
  | 0, _ => .error .depthExceeded
  | _ + 1, [] => .ok []
  | f + 1, (k, v) :: tl =>
    if isAt k then .error (.mixedMarker k)
    else
      match readJF f v with
      | .error e => .error e
      | .ok vv =>
        match readObjF f tl with
        | .error e => .error e
        | .ok r => .ok ((.vstr k, vv) :: r)

end

mutual

/-- Size bound used as reader fuel. -/
def jfuel : JValue → Nat
  | .jarr xs => 1 + jfuelL xs
  | .jobj ps => 1 + jfuelP ps
  | _ => 1

/-- Size bound over element lists. -/
def jfuelL : List JValue → Nat
  | [] => 1
  | x :: tl => 1 + jfuel x + jfuelL tl

/-- Size bound over object entry lists. -/
def jfuelP : List (List Nat × JValue) → Nat
  | [] => 1
  | (_, v) :: tl => 1 + jfuel v + jfuelP tl

end

/-- The JSON reader, with an input-derived fuel. -/
def readJ (j : JValue) : Except DErr Value := readJF (8 * jfuel j + 8) j

/-! ### Record framing, decode side (spec §4.6) -/

/-- Class identity of a record's first pickle: a 2-tuple
`(module, classname)` or a class Global. -/
def classOf : Value → Option (List Nat × List Nat)
  | .vtuple [.vstr m, .vstr q] => some (m, q)
  | .vglobal m q => some (m, q)
  | _ => none

/-- `decode_zodb_record`: split two back-to-back pickle streams, demand a
class identity from the first, recognize and flatten the second, and wrap
in the `@cls`/`@s` envelope. -/
def decode_zodb_record (bs : List Nat) : Except DErr JValue :=
  match decodeStreamR bs with
  | .error e => .error e
  | .ok (v1, rest) =>
    match classOf v1 with
    | none => .error .badRecord
    | some (m, q) =>
      match decodeStreamR rest with
      | .error e => .error e
      | .ok (v2, _) => .ok (writeJ (recognize (.vrecord m q v2)))

/-- `pickle_to_dict`: decode one stream, recognize, serialize to the JSON
tree. -/
def pickle_to_dict (bs : List Nat) : Except DErr JValue :=
  match decodeStreamR bs with
  | .error e => .error e
  | .ok (v, _) => .ok (writeJ (recognize v))

/-! ### JSON text (spec §4.5)
Modelled from the spec: minimal UTF-8 JSON text with no added whitespace;
strings escape the quote, the backslash and control bytes (as lowercase
`u00XX`), and pass all other bytes through. -/

/-- Escape one byte of a JSON string body. -/
def jsEscC (c : Nat) : List Nat :=
  if c = 34 then [92, 34]
  else if c = 92 then [92, 92]
  else if c < 32 then [92, 117, 48, 48, hexDig (c / 16), hexDig (c % 16)]
  else [c]

/-- Escape a JSON string body. -/
def jsEsc (s : List Nat) : List Nat := s.foldr (fun c acc => jsEscC c ++ acc) []

mutual

/-- Serialize a JSON tree to JSON text bytes. -/
def jsonWrite : JValue → List Nat
  | .jnull => sb "null"
  | .jbool true => sb "true"
  | .jbool false => sb "false"
  | .jint n => decInt n
  | .jfloat bits => floatText bits
  | .jstr s => 34 :: jsEsc s ++ [34]
  | .jarr xs => 91 :: jsonWriteArr xs ++ [93]
  | .jobj ps => 123 :: jsonWriteObj ps ++ [125]

/-- Comma-separated array elements. -/
def jsonWriteArr : List JValue → List Nat
  | [] => []
  | x :: tl => jsonWrite x ++ jsonWriteArrT tl

/-- Array elements after the first, each with a leading comma. -/
def jsonWriteArrT : List JValue → List Nat
  | [] => []
  | x :: tl => 44 :: jsonWrite x ++ jsonWriteArrT tl

/-- Comma-separated object entries. -/
def jsonWriteObj : List (List Nat × JValue) → List Nat
  | [] => []
  | (k, v) :: tl => 34 :: jsEsc k ++ 34 :: 58 :: jsonWrite v ++ jsonWriteObjT tl

/-- Object entries after the first, each with a leading comma. -/
def jsonWriteObjT : List (List Nat × JValue) → List Nat
  | [] => []
  | (k, v) :: tl => 44 :: 34 :: jsEsc k ++ 34 :: 58 :: jsonWrite v ++ jsonWriteObjT tl

end

/-- `pickle_to_json`: decode, recognize, and serialize to JSON text. -/
def pickle_to_json (bs : List Nat) : Except DErr (List Nat) :=
  (pickle_to_dict bs).map jsonWrite

mutual

/-- Every object key occurring anywhere in a JSON tree. -/
def objKeysJ : JValue → List (List Nat)
  | .jobj ps => objKeysP ps
  | .jarr xs => objKeysL xs
  | _ => []

/-- Object keys across a list of JSON trees. -/
def objKeysL : List JValue → List (List Nat)
  | [] => []
  | x :: tl => objKeysJ x ++ objKeysL tl

/-- Object keys across entries: each entry's own key, then its value's. -/
def objKeysP : List (List Nat × JValue) → List (List Nat)
  | [] => []
  | (k, v) :: tl => k :: (objKeysJ v ++ objKeysP tl)

end

/-! ### Pickle encoder (spec §4.4)
Modelled from the spec: emits protocol 3 with the narrowest opcode for
each value, a `MEMOIZE` after every compound-value construction, and a
memo-writer map (reuse via `BINGET`) for class globals only.  Known types
and records are emitted in their canonical Reduce forms; sets and
frozensets via the protocol-3 `builtins.set`/`builtins.frozenset`
Reduce. -/

/-- Little-endian base-256 digits of a natural number (no terminator). -/
def natBytesLE : Nat → Nat → List Nat
  | 0, _ => []
  | _ + 1, 0 => []
  | f + 1, m => m % 256 :: natBytesLE f (m / 256)

/-- Smallest byte count `k ≥ 1` with `m ≤ 2^(8k-1)` (fueled scan). -/
def tcLenAux : Nat → Nat → Nat → Nat → Nat
  | 0, k, _, _ => k
  | f + 1, k, cap, m => if m ≤ cap then k else tcLenAux f (k + 1) (cap * 256) m

/-- Minimal little-endian two's-complement bytes of an integer. -/
def tcBytes (n : Int) : List Nat :=
  if n = 0 then []
  else if 0 < n then
    let bs := natBytesLE (n.toNat + 1) n.toNat
    if 128 ≤ (bs.getLast?.getD 0) then bs ++ [0] else bs
  else
    let m := n.natAbs
    let k := tcLenAux (m + 1) 1 128 m
    wrLE k (2 ^ (8 * k) - m)

/-- Integer emission with the narrowest opcode (spec §4.4). -/
def emitInt (n : Int) : Except DErr (List Nat) :=
  if 0 ≤ n ∧ n < 256 then .ok [75, n.toNat]
  else if 0 ≤ n ∧ n < 65536 then .ok (77 :: wrLE 2 n.toNat)
  else if -(2 ^ 31) ≤ n ∧ n < 2 ^ 31 then .ok (74 :: wrLE 4 (n % 2 ^ 32).toNat)
  else
    let bs := tcBytes n
    if bs.length ≤ 255 then .ok (138 :: bs.length :: bs)
    else if bs.length < 2 ^ 32 then .ok (139 :: wrLE 4 bs.length ++ bs)
    else .error .encodeFailure

/-- String emission with the narrowest opcode. -/
def emitStr (s : List Nat) : Except DErr (List Nat) :=
  if s.length ≤ 255 then .ok (140 :: s.length :: s)
  else if s.length < 2 ^ 32 then .ok (88 :: wrLE 4 s.length ++ s)
  else if s.length < 2 ^ 64 then .ok (141 :: wrLE 8 s.length ++ s)
  else .error .encodeFailure

/-- Bytes emission with the narrowest opcode. -/
def emitBytes (b : List Nat) : Except DErr (List Nat) :=
  if b.length ≤ 255 then .ok (67 :: b.length :: b)
  else if b.length < 2 ^ 32 then .ok (66 :: wrLE 4 b.length ++ b)
  else if b.length < 2 ^ 64 then .ok (142 :: wrLE 8 b.length ++ b)
  else .error .encodeFailure

/-- Class-global memo-writer map: `(module, qualname) → memo index`. -/
abbrev GMap := List ((List Nat × List Nat) × Nat)

/-- Encoder state: next memo index and the class-global map. -/
abbrev Enc := Nat × GMap

/-- Advance the memo counter by `k` (memoized constructions). -/
def bump (e : Enc) (k : Nat) : Enc := (e.1 + k, e.2)

/-- Emit a class global: fresh `GLOBAL … MEMOIZE`, or `BINGET` reuse
(spec §4.4 memoization of reused class identities). -/
def emitGlobalE (m q : List Nat) (e : Enc) : Except DErr (List Nat × Nat × Enc) :=
  if 10 ∈ m ∨ 10 ∈ q then .error .encodeFailure
  else
    match e.2.lookup (m, q) with
    | some i =>
      if i < 256 then .ok ([104, i], 1, e)
      else if i < 2 ^ 32 then .ok (106 :: wrLE 4 i, 1, e)
      else .error .encodeFailure
    | none => .ok (99 :: m ++ 10 :: q ++ [10, 148], 2, (e.1 + 1, ((m, q), e.1) :: e.2))

/-- Emit the canonical Reduce of a timezone payload. -/
def emitTzK : Tzv → Enc → Except DErr (List Nat × Nat × Enc)
  | .off min, e => do
    let (g1, i1, e1) ← emitGlobalE (sb "datetime") (sb "timezone") e
    let (g2, i2, e2) ← emitGlobalE (sb "datetime") (sb "timedelta") e1
    match tdOfMinutes min with
    | (d, s) => do
      let bd ← emitInt d
      let bs2 ← emitInt s
      let bu ← emitInt 0
      .ok (g1 ++ g2 ++ bd ++ bs2 ++ bu ++ [135, 148, 82, 148, 133, 148, 82, 148],
           i1 + i2 + 11, bump e2 4)
  | .pytz n, e => do
    let (g, i, e1) ← emitGlobalE (sb "pytz") (sb "_p") e
    let s ← emitStr n
    .ok (g ++ s ++ [133, 148, 82, 148], i + 5, bump e1 2)
  | .zinfo n, e => do
    let (g, i, e1) ← emitGlobalE (sb "zoneinfo") (sb "ZoneInfo") e
    let s ← emitStr n
    .ok (g ++ s ++ [133, 148, 82, 148], i + 5, bump e1 2)

/-- Emit the canonical Reduce of a known-type value (spec §4.5: the exact
argument bytes the decoder expects). -/
def emitKnown : Known → Enc → Except DErr (List Nat × Nat × Enc)
  | .dt y mo d h mi s us tz, e => do
    let (g, i, e1) ← emitGlobalE (sb "datetime") (sb "datetime") e
    let bb ← emitBytes (packDT y mo d h mi s us)
    match tz with
    | none => .ok (g ++ bb ++ [133, 148, 82, 148], i + 5, bump e1 2)
    | some t => do
      let (tb, ti, e2) ← emitTzK t e1
      .ok (g ++ bb ++ tb ++ [134, 148, 82, 148], i + 1 + ti + 4, bump e2 2)
  | .date y mo d, e => do
    let (g, i, e1) ← emitGlobalE (sb "datetime") (sb "date") e
    let bb ← emitBytes [y / 256 % 256, y % 256, mo % 256, d % 256]
    .ok (g ++ bb ++ [133, 148, 82, 148], i + 5, bump e1 2)
  | .time h mi s us tz, e => do
    let (g, i, e1) ← emitGlobalE (sb "datetime") (sb "time") e
    let bb ← emitBytes (packTime h mi s us)
    match tz with
    | none => .ok (g ++ bb ++ [133, 148, 82, 148], i + 5, bump e1 2)
    | some t => do
      let (tb, ti, e2) ← emitTzK t e1
      .ok (g ++ bb ++ tb ++ [134, 148, 82, 148], i + 1 + ti + 4, bump e2 2)
  | .td d s us, e => do
    let (g, i, e1) ← emitGlobalE (sb "datetime") (sb "timedelta") e
    let bd ← emitInt d
    let bs2 ← emitInt s
    let bu ← emitInt us
    .ok (g ++ bd ++ bs2 ++ bu ++ [135, 148, 82, 148], i + 7, bump e1 2)
  | .dec s, e => do
    let (g, i, e1) ← emitGlobalE (sb "decimal") (sb "Decimal") e
    let ss ← emitStr s
    .ok (g ++ ss ++ [133, 148, 82, 148], i + 5, bump e1 2)
  | .uuid n, e => do
    let (g, i, e1) ← emitGlobalE (sb "uuid") (sb "UUID") e
    let nn ← emitInt n
    .ok (g ++ nn ++ [133, 148, 82, 148], i + 5, bump e1 2)

mutual

/-- Emit one value: returns bytes, instruction count and the new state. -/
def emitV : Value → Enc → Except DErr (List Nat × Nat × Enc)
  | .vnone, e => .ok ([78], 1, e)
  | .vbool true, e => .ok ([136], 1, e)
  | .vbool false, e => .ok ([137], 1, e)
  | .vint n, e => do
    let bs ← emitInt n
    .ok (bs, 1, e)
  | .vfloat bits, e => .ok (71 :: wrBE 8 bits, 1, e)
  | .vstr s, e => do
    let bs ← emitStr s
    .ok (bs, 1, e)
  | .vbytes b, e => do
    let bs ← emitBytes b
    .ok (bs, 1, e)
  | .vlist xs, e => emitListOf xs e
  | .vtuple xs, e => emitTupleOf xs e
  | .vdict ps, e =>
    match ps with
    | [] => .ok ([125, 148], 2, bump e 1)
    | (k, v) :: tl => do
      let (kb, ki, e1) ← emitV k e
      let (vb, vi, e2) ← emitV v e1
      let (tb, ti, e3) ← emitVP tl e2
      .ok (125 :: 40 :: kb ++ vb ++ tb ++ [117, 148], ki + vi + ti + 4, bump e3 1)
  | .vset xs, e => do
    let (g, gi, e1) ← emitGlobalE (sb "builtins") (sb "set") e
    let (lb, li, e2) ← emitListOf xs e1
    .ok (g ++ lb ++ [133, 148, 82, 148], gi + li + 4, bump e2 2)
  | .vfset xs, e => do
    let (g, gi, e1) ← emitGlobalE (sb "builtins") (sb "frozenset") e
    let (lb, li, e2) ← emitListOf xs e1
    .ok (g ++ lb ++ [133, 148, 82, 148], gi + li + 4, bump e2 2)
  | .vglobal m q, e => emitGlobalE m q e
  | .vref oid h, e =>
    match h with
    | none => do
      let ob ← emitBytes oid
      .ok (ob ++ [81], 2, e)
    | some hh => do
      let ob ← emitBytes oid
      match splitLastDot hh with
      | (hm, hc) => do
        let sm ← emitStr hm
        let sc ← emitStr hc
        .ok (ob ++ sm ++ sc ++ [134, 148, 134, 148, 81], 8, bump e 2)
  | .vreduce m q args st li di, e => do
    let (g, gi, e1) ← emitGlobalE m q e
    let (ab, ai, e2) ← emitTupleOf args e1
    let e3 := bump e2 1
    let (stb, sti, e4) ←
      match st with
      | none => (.ok ([], 0, e3) : Except DErr (List Nat × Nat × Enc))
      | some s => do
        let (sb1, si, e4) ← emitV s e3
        .ok (sb1 ++ [98], si + 1, e4)
    let (lib, lii, e5) ←
      match li with
      | [] => (.ok ([], 0, e4) : Except DErr (List Nat × Nat × Enc))
      | l0 :: ltl => do
        let (xb, xi, e5a) ← emitV l0 e4
        let (ib, ic, e5) ← emitVL ltl e5a
        .ok (40 :: xb ++ ib ++ [101], xi + ic + 2, e5)
    let (dib, dii, e6) ←
      match di with
      | [] => (.ok ([], 0, e5) : Except DErr (List Nat × Nat × Enc))
      | (k0, v0) :: dtl => do
        let (kb, ki, e6a) ← emitV k0 e5
        let (vb, vi, e6b) ← emitV v0 e6a
        let (ib, ic, e6) ← emitVP dtl e6b
        .ok (40 :: kb ++ vb ++ ib ++ [117], ki + vi + ic + 2, e6)
    .ok (g ++ ab ++ [82, 148] ++ stb ++ lib ++ dib, gi + ai + 2 + sti + lii + dii, e6)
  | .vknown k, e => emitKnown k e
  | .vrecord m q s, e => do
    let (g, gi, e1) ← emitGlobalE m q e
    let (sb1, si, e2) ← emitV s (bump e1 2)
    .ok (g ++ [41, 148, 82, 148] ++ sb1 ++ [98], gi + 4 + si + 1, e2)

/-- Emit a list value (`EMPTY_LIST` then a marked `APPENDS` batch). -/
def emitListOf : List Value → Enc → Except DErr (List Nat × Nat × Enc)
  | [], e => .ok ([93, 148], 2, bump e 1)
  | x :: tl, e => do
    let (xb, xi, e1) ← emitV x e
    let (tb, ti, e2) ← emitVL tl e1
    .ok (93 :: 40 :: xb ++ tb ++ [101, 148], xi + ti + 4, bump e2 1)

/-- Emit a tuple value with the dedicated small-arity opcodes. -/
def emitTupleOf : List Value → Enc → Except DErr (List Nat × Nat × Enc)
  | [], e => .ok ([41, 148], 2, bump e 1)
  | [a], e => do
    let (ab, ai, e1) ← emitV a e
    .ok (ab ++ [133, 148], ai + 2, bump e1 1)
  | [a, b], e => do
    let (ab, ai, e1) ← emitV a e
    let (bb, bi, e2) ← emitV b e1
    .ok (ab ++ bb ++ [134, 148], ai + bi + 2, bump e2 1)
  | [a, b, c], e => do
    let (ab, ai, e1) ← emitV a e
    let (bb, bi, e2) ← emitV b e1
    let (cb, ci, e3) ← emitV c e2
    .ok (ab ++ bb ++ cb ++ [135, 148], ai + bi + ci + 2, bump e3 1)
  | a :: b :: c :: d :: tl, e => do
    let (ab, ai, e1) ← emitV a e
    let (bb, bi, e2) ← emitV b e1
    let (cb, ci, e3) ← emitV c e2
    let (db, di2, e4) ← emitV d e3
    let (tb, ti, e5) ← emitVL tl e4
    .ok (40 :: ab ++ bb ++ cb ++ db ++ tb ++ [116, 148],
         ai + bi + ci + di2 + ti + 3, bump e5 1)

/-- Emit list elements in order. -/
def emitVL : List Value → Enc → Except DErr (List Nat × Nat × Enc)
  | [], e => .ok ([], 0, e)
  | x :: tl, e => do
    let (xb, xi, e1) ← emitV x e
    let (tb, ti, e2) ← emitVL tl e1
    .ok (xb ++ tb, xi + ti, e2)

/-- Emit key/value pairs in order. -/
def emitVP : List (Value × Value) → Enc → Except DErr (List Nat × Nat × Enc)
  | [], e => .ok ([], 0, e)
  | (k, v) :: tl, e => do
    let (kb, ki, e1) ← emitV k e
    let (vb, vi, e2) ← emitV v e1
    let (tb, ti, e3) ← emitVP tl e2
    .ok (kb ++ vb ++ tb, ki + vi + ti, e3)

end

/-- Emit one standalone pickle stream (`PROTO 3 … STOP`). -/
def emitStream (v : Value) : Except DErr (List Nat) := do
  let (bs, _, _) ← emitV v (0, [])
  .ok (128 :: 3 :: bs ++ [46])

/-- `dict_to_pickle`: read the JSON tree back and emit one stream. -/
def dict_to_pickle (j : JValue) : Except DErr (List Nat) := do
  let v ← readJ j
  emitStream v

/-- `encode_zodb_record` (spec §4.6, §4.4 Globals): the class-identity
pickle uses the `GLOBAL` opcode, then the state pickle; each begins with
`PROTO 3` and ends with `STOP`. -/
def encode_zodb_record (j : JValue) : Except DErr (List Nat) := do
  let v ← readJ j
  match v with
  | .vrecord m q s =>
    if 10 ∈ m ∨ 10 ∈ q then .error .encodeFailure
    else do
      let cls := 128 :: 3 :: 99 :: m ++ 10 :: q ++ [10, 148, 46]
      let stb ← emitStream s
      .ok (cls ++ stb)
  | _ => .error .badRecord

/-- An ambient environment (hashing salt, wall clock) that a
non-deterministic encoder could consult; the spec's encoder reads no such
state, so this wrapper ignores it (spec §4.4, §9 Determinism). -/
structure Env where
  hashSalt : Nat
  timestamp : Nat

/-- The encoder as a function of an ambient environment (which the spec
says it must not consult). -/
def encodeWithEnv (_env : Env) (v : Value) : Except DErr (List Nat) := emitStream v

/-! ### Concrete fixtures (used by witnesses)
`fixDocB` is `pickle.dumps(("myapp","Doc"), 3) + pickle.dumps(None, 3)`;
`fixTreeB` is the `TestSmallOOBTree` record
`pickle.dumps(("BTrees.OOBTree","OOBTree"), 3) +
 pickle.dumps((((("a",1,"b",2),),),), 3)`;
`fixDtB` is `pickle.dumps(datetime(2025, 6, 15, 12, 30, 45), 3)`. -/

/-- A minimal record: class `("myapp","Doc")`, state `None`. -/
def fixDocB : List Nat :=
  [128, 3, 88, 5, 0, 0, 0, 109, 121, 97, 112, 112, 113, 0, 88, 3, 0, 0, 0, 68,
   111, 99, 113, 1, 134, 113, 2, 46, 128, 3, 78, 46]

/-- The decoded JSON of `fixDocB`. -/
def fixDocJ : JValue :=
  .jobj [(sb "@cls", .jarr [.jstr (sb "myapp"), .jstr (sb "Doc")]), (sb "@s", .jnull)]

/-- The re-encoding of `fixDocJ`. -/
def fixDocB2 : List Nat := (encode_zodb_record fixDocJ).toOption.getD []

/-- The same record as `fixDocB`, but with the class identity of the first
pickle written with the `GLOBAL` opcode instead of a 2-tuple. -/
def fixDocGB : List Nat :=
  [128, 3, 99] ++ sb "myapp" ++ [10] ++ sb "Doc" ++ [10, 148, 46] ++ [128, 3, 78, 46]

/-- The small-OOBTree fixture record. -/
def fixTreeB : List Nat :=
  [128, 3, 88, 14, 0, 0, 0, 66, 84, 114, 101, 101, 115, 46, 79, 79, 66, 84, 114,
   101, 101, 113, 0, 88, 7, 0, 0, 0, 79, 79, 66, 84, 114, 101, 101, 113, 1, 134,
   113, 2, 46, 128, 3, 40, 88, 1, 0, 0, 0, 97, 113, 0, 75, 1, 88, 1, 0, 0, 0, 98,
   113, 1, 75, 2, 116, 113, 2, 133, 113, 3, 133, 113, 4, 133, 113, 5, 46]

/-- The decoded JSON of `fixTreeB`. -/
def fixTreeJ : JValue :=
  .jobj [(sb "@cls", .jarr [.jstr (sb "BTrees.OOBTree"), .jstr (sb "OOBTree")]),
    (sb "@s", .jobj [(sb "@kv",
      .jarr [.jarr [.jstr (sb "a"), .jint 1], .jarr [.jstr (sb "b"), .jint 2]])])]

/-- The re-encoding of `fixTreeJ`. -/
def fixTreeB2 : List Nat := (encode_zodb_record fixTreeJ).toOption.getD []

/-- `pickle.dumps(datetime(2025, 6, 15, 12, 30, 45), 3)`. -/
def fixDtB : List Nat :=
  [128, 3, 99, 100, 97, 116, 101, 116, 105, 109, 101, 10, 100, 97, 116, 101,
   116, 105, 109, 101, 10, 113, 0, 67, 10, 7, 233, 6, 15, 12, 30, 45, 0, 0, 0,
   113, 1, 133, 113, 2, 82, 113, 3, 46]

/-- The state pickle of `fixTreeB` (its bytes from offset 41). -/
def fixTreeStateB : List Nat :=
  [128, 3, 40, 88, 1, 0, 0, 0, 97, 113, 0, 75, 1, 88, 1, 0, 0, 0, 98,
   113, 1, 75, 2, 116, 113, 2, 133, 113, 3, 133, 113, 4, 133, 113, 5, 46]

/-- `pickle.dumps(dict(name = Alice, age = 30), 3)`. -/
def fixDictB : List Nat :=
  [128, 3, 125, 113, 0, 40, 88, 4, 0, 0, 0, 110, 97, 109, 101, 113, 1, 88, 5,
   0, 0, 0, 65, 108, 105, 99, 101, 113, 2, 88, 3, 0, 0, 0, 97, 103, 101, 113,
   3, 75, 30, 117, 46]

/-! ### Validity predicates
A value decoded from a real pickle satisfies these byte-level and
key-distinctness conditions; they are the conditions under which the
encoder's output decodes back to the same value. -/

/-- Pairwise-distinct dict keys (in the decoder's equality). -/
def distinctKeys : List (Value × Value) → Bool
  | [] => true
  | (k, _) :: tl => tl.all (fun p => !vbeq k p.1) && distinctKeys tl

/-- Interleave a pair list into the flat `[k1, v1, k2, v2, …]` run the
pickle wire carries for `SETITEMS`. -/
def flatPairs : List (Value × Value) → List Value
  | [] => []
  | (k, v) :: tl => k :: v :: flatPairs tl

/-- Byte-level validity of a timezone payload. -/
def goodTz : Option Tzv → Bool
  | none => true
  | some (.off _) => true
  | some (.pytz n) => n.all (· < 256)
  | some (.zinfo n) => n.all (· < 256)

/-- Byte-level validity of a known-type value. -/
def goodK : Known → Bool
  | .dt _ _ _ _ _ _ _ tz => goodTz tz
  | .date _ _ _ => true
  | .time _ _ _ _ tz => goodTz tz
  | .td _ _ _ => true
  | .dec s => s.all (· < 256)
  | .uuid _ => true

mutual

/-- Values whose emission decodes back exactly (`lower`ed): every byte
below 256, float patterns 64-bit, and dict keys pairwise distinct. -/
def goodV : Value → Bool
  | .vnone => true
  | .vbool _ => true
  | .vint _ => true
  | .vfloat bits => decide (bits < 2 ^ 64)
  | .vstr s => s.all (· < 256)
  | .vbytes b => b.all (· < 256)
  | .vlist xs => goodL xs
  | .vtuple xs => goodL xs
  | .vdict ps => goodP ps && distinctKeys (lowerP ps)
  | .vset xs => goodL xs
  | .vfset xs => goodL xs
  | .vglobal m q => m.all (· < 256) && q.all (· < 256)
  | .vref oid h =>
    oid.all (· < 256) &&
      (match h with | none => true | some hh => hh.all (· < 256))
  | .vreduce m q args st li di =>
    m.all (· < 256) && q.all (· < 256) && goodL args && goodO st &&
      goodL li && goodP di && distinctKeys (lowerP di)
  | .vknown k => goodK k
  | .vrecord m q s => m.all (· < 256) && q.all (· < 256) && goodV s
termination_by structural v => v

/-- Validity over value lists. -/
def goodL : List Value → Bool
  | [] => true
  | x :: tl => goodV x && goodL tl
termination_by structural v => v

/-- Validity over value-pair lists. -/
def goodP : List (Value × Value) → Bool
  | [] => true
  | (k, v) :: tl => goodV k && goodV v && goodP tl
termination_by structural v => v

/-- Validity over optional values. -/
def goodO : Option Value → Bool
  | none => true
  | some v => goodV v
termination_by structural v => v

end

/-- The decode-time invariant of the encoder state: the memo has exactly
`e.1` entries and every class-global map entry points at its global. -/
def InvE (e : Enc) (M : List (Option Value)) : Prop :=
  M.length = e.1 ∧
    ∀ mq i, (mq, i) ∈ e.2 → memoGet M i = some (.vglobal mq.1 mq.2)

/-- Simulation: running the decoder over the emitted bytes pushes exactly
`w` (with some memo tag), extends the memo compatibly, and re-establishes
the encoder-state invariant. -/
def SimPush (w : Value) (e : Enc) (bs : List Nat) (ic : Nat) (e' : Enc) : Prop :=
  ∀ st : MSt, InvE e st.memo →
    ∃ tg M',
      (∀ f rest, run (ic + f) (bs ++ rest) st =
        run f rest { st with stack := (w, tg) :: st.stack, memo := M' }) ∧
      InvE e' M' ∧
      (∀ j, j < st.memo.length → memoGet M' j = memoGet st.memo j) ∧
      st.memo.length ≤ M'.length

/-- Simulation for an emitted element run: the decoder pushes the lowered
values in order (so the top of the stack is the last element). -/
def SimSeq (ws : List Value) (e : Enc) (bs : List Nat) (ic : Nat) (e' : Enc) :
    Prop :=
  ∀ st : MSt, InvE e st.memo →
    ∃ (tagged : List (Value × Option Nat)) (M' : List (Option Value)),
      tagged.map Prod.fst = ws.reverse ∧
      (∀ f rest, run (ic + f) (bs ++ rest) st =
        run f rest { st with stack := tagged ++ st.stack, memo := M' }) ∧
      InvE e' M' ∧
      (∀ j, j < st.memo.length → memoGet M' j = memoGet st.memo j) ∧
      st.memo.length ≤ M'.length

/-! ## Theorems -/

mutual

/-- `vbeq` decides propositional equality. -/
theorem vbeq_iff : ∀ (a b : Value), vbeq a b = true ↔ a = b := by
  intro a b
  cases a <;> cases b <;> try (simp [vbeq]; done)
  case vlist.vlist xs ys => simp [vbeq, vbeqL_iff xs ys]
  case vtuple.vtuple xs ys => simp [vbeq, vbeqL_iff xs ys]
  case vdict.vdict xs ys => simp [vbeq, vbeqP_iff xs ys]
  case vset.vset xs ys => simp [vbeq, vbeqL_iff xs ys]
  case vfset.vfset xs ys => simp [vbeq, vbeqL_iff xs ys]
  case vreduce.vreduce m1 q1 a1 s1 l1 d1 m2 q2 a2 s2 l2 d2 =>
    simp [vbeq, vbeqL_iff a1 a2, vbeqO_iff s1 s2, vbeqL_iff l1 l2, vbeqP_iff d1 d2,
      and_assoc]
  case vrecord.vrecord m1 q1 s1 m2 q2 s2 =>
    simp [vbeq, vbeq_iff s1 s2, and_assoc]

/-- `vbeqL` decides propositional equality. -/
theorem vbeqL_iff : ∀ (a b : List Value), vbeqL a b = true ↔ a = b := by
  intro a b
  match a, b with
  | [], [] => simp [vbeqL]
  | [], _ :: _ => simp [vbeqL]
  | _ :: _, [] => simp [vbeqL]
  | x :: xs, y :: ys => simp [vbeqL, vbeq_iff x y, vbeqL_iff xs ys]

/-- `vbeqP` decides propositional equality. -/
theorem vbeqP_iff : ∀ (a b : List (Value × Value)), vbeqP a b = true ↔ a = b := by
  intro a b
  match a, b with
  | [], [] => simp [vbeqP]
  | [], _ :: _ => simp [vbeqP]
  | _ :: _, [] => simp [vbeqP]
  | (k1, v1) :: xs, (k2, v2) :: ys =>
    simp [vbeqP, vbeq_iff k1 k2, vbeq_iff v1 v2, vbeqP_iff xs ys]

/-- `vbeqO` decides propositional equality. -/
theorem vbeqO_iff : ∀ (a b : Option Value), vbeqO a b = true ↔ a = b := by
  intro a b
  match a, b with
  | none, none => simp [vbeqO]
  | none, some _ => simp [vbeqO]
  | some _, none => simp [vbeqO]
  | some x, some y => simp [vbeqO, vbeq_iff x y]

end

/-! ### C5: class identity emitted with the GLOBAL opcode -/

/-- C5: every successfully re-encoded record begins with the `PROTO`
byte `0x80`, the protocol number, and then the `GLOBAL` opcode byte
`c` — the class identity is emitted as a Global, not a tuple literal. -/
theorem c5_class_pickle_uses_global (j : JValue) (bs : List Nat)
    (h : encode_zodb_record j = .ok bs) :
    bs.take 3 = [128, 3, 99] := by
  unfold encode_zodb_record at h
  cases hr : readJ j with
  | error e => rw [hr] at h; simp [Bind.bind, Except.bind] at h
  | ok v =>
    rw [hr] at h
    simp only [Bind.bind, Except.bind] at h
    cases v <;> simp only at h <;> try (cases h)
    next m q s =>
      by_cases hnl : 10 ∈ m ∨ 10 ∈ q
      · simp [hnl] at h
      · simp only [hnl, if_false] at h
        cases hs : emitStream s with
        | error e => rw [hs] at h; simp [Bind.bind, Except.bind] at h
        | ok stb =>
          rw [hs] at h
          simp only [Bind.bind, Except.bind, Except.ok.injEq] at h
          subst h
          rfl

/-- Witness for C5 at the `("myapp","Doc")`/`None` fixture. -/
theorem c5_witness :
    encode_zodb_record fixDocJ = .ok fixDocB2 ∧ fixDocB2.take 3 = [128, 3, 99] :=
  ⟨rfl, c5_class_pickle_uses_global fixDocJ fixDocB2 rfl⟩

/-! ### C9: encoder determinism -/

/-- C9: the encoder is a pure function of the input value: two runs under
any two ambient environments produce identical bytes, and successful
output is protocol-3 (`0x80 0x03` framing). -/
theorem c9_encoder_deterministic :
    (∀ (e1 e2 : Env) (v : Value), encodeWithEnv e1 v = encodeWithEnv e2 v) ∧
    (∀ (v : Value) (bs : List Nat), emitStream v = .ok bs → bs.take 2 = [128, 3]) := by
  refine ⟨fun _ _ _ => rfl, fun v bs h => ?_⟩
  unfold emitStream at h
  cases he : emitV v (0, []) with
  | error e => rw [he] at h; simp [Bind.bind, Except.bind] at h
  | ok out =>
    rw [he] at h
    obtain ⟨b1, ic, e1⟩ := out
    simp only [Bind.bind, Except.bind, Except.ok.injEq] at h
    subst h
    rfl

/-- Witness for C9 at `None`. -/
theorem c9_witness :
    encodeWithEnv ⟨0, 0⟩ .vnone = encodeWithEnv ⟨17, 99⟩ .vnone ∧
    emitStream .vnone = .ok [128, 3, 78, 46] ∧
    ([128, 3, 78, 46] : List Nat).take 2 = [128, 3] :=
  ⟨c9_encoder_deterministic.1 ⟨0, 0⟩ ⟨17, 99⟩ .vnone, rfl,
   c9_encoder_deterministic.2 .vnone [128, 3, 78, 46] rfl⟩

/-! ### Auxiliary structure lemmas -/

/-- `writeJL` preserves length. -/
theorem writeJL_length (xs : List Value) : (writeJL xs).length = xs.length := by
  induction xs with
  | nil => simp [writeJL]
  | cons x tl ih => simp [writeJL, ih]

/-- `recognizeL` preserves length. -/
theorem recognizeL_length (xs : List Value) : (recognizeL xs).length = xs.length := by
  induction xs with
  | nil => simp [recognizeL]
  | cons x tl ih => simp [recognizeL, ih]

set_option maxRecDepth 8000 in
/-- `recNode` never yields a string. -/
theorem recNode_ne_vstr (m q : List Nat) (args : List Value) (st : Option Value)
    (li : List Value) (di : List (Value × Value)) (s : List Nat) :
    recNode m q args st li di ≠ .vstr s := by
  intro hEq
  unfold recNode at hEq
  repeat' split at hEq
  all_goals simp [ite_eq_iff] at hEq

/-- `recognize` yields a string only on strings (which it fixes). -/
theorem recognize_vstr_iff (v : Value) (s : List Nat) :
    recognize v = .vstr s ↔ v = .vstr s := by
  cases v <;> simp [recognize]
  exact recNode_ne_vstr _ _ _ _ _ _ s

/-- A pair list headed by a non-string key is not plain-keyed. -/
theorem plainKeys_cons_not_str (x w : Value) (r : List (Value × Value))
    (h : ∀ s, x ≠ Value.vstr s) : plainKeys ((x, w) :: r) = false := by
  cases x <;> simp [plainKeys]
  exact absurd rfl (h _)

/-- Recognition preserves the plain-keyed test on dict bodies. -/
theorem plainKeys_recognizeP (ps : List (Value × Value)) :
    plainKeys (recognizeP ps) = plainKeys ps := by
  induction ps with
  | nil => simp [recognizeP]
  | cons kv tl ih =>
    obtain ⟨k, v⟩ := kv
    rw [recognizeP]
    cases k
    all_goals try (simp [recognize, plainKeys, ih]; done)
    case vreduce m2 q2 a2 s2 l2 d2 =>
      rw [show recognize (.vreduce m2 q2 a2 s2 l2 d2) =
            recNode m2 q2 (recognizeL a2) (recognizeO s2) (recognizeL l2)
              (recognizeP d2) from rfl]
      rw [plainKeys_cons_not_str _ _ _ (fun s h => recNode_ne_vstr _ _ _ _ _ _ s h)]
      simp [plainKeys]

/-! ### C3: small-BTree state flattening -/

/-- C3: a BTree-class record whose state is the four-level small-tree
nesting is rewritten to the `@kv` pair list (the empty nesting giving
`@kv: []` as the `flat = []` instance), and a `None` state is preserved
as `null`. -/
theorem c3_small_btree_flatten :
    (∀ (B : List Nat) (v1 : Value) (m q : List Nat) (flat : List Value)
       (rest rest2 : List Nat) (ps : List JValue),
       decodeStreamR B = .ok (v1, rest) →
       classOf v1 = some (m, q) →
       btreeKind m q = some (true, true) →
       decodeStreamR rest = .ok (.vtuple [.vtuple [.vtuple [.vtuple flat]]], rest2) →
       kvJ (writeJL (recognizeL flat)) = some ps →
       decode_zodb_record B =
         .ok (.jobj [(sb "@cls", .jarr [.jstr m, .jstr q]),
                     (sb "@s", .jobj [(sb "@kv", .jarr ps)])])) ∧
    (∀ (B : List Nat) (v1 : Value) (m q : List Nat) (rest rest2 : List Nat),
       decodeStreamR B = .ok (v1, rest) →
       classOf v1 = some (m, q) →
       decodeStreamR rest = .ok (.vnone, rest2) →
       decode_zodb_record B =
         .ok (.jobj [(sb "@cls", .jarr [.jstr m, .jstr q]), (sb "@s", .jnull)])) := by
  constructor
  · intro B v1 m q flat rest rest2 ps h1 h2 h3 h4 h5
    unfold decode_zodb_record
    rw [h1]
    simp only [h2, h4]
    simp only [recognize, recognizeL, writeJ, writeJL, flatState, h3, flatSmall, tupJ]
    simp [flatSmallKV, h5]
  · intro B v1 m q rest rest2 h1 h2 h4
    unfold decode_zodb_record
    rw [h1]
    simp only [h2, h4]
    simp only [recognize, writeJ, flatState]
    cases hb : btreeKind m q with
    | none => rfl
    | some fk =>
      obtain ⟨four, kv⟩ := fk
      cases four <;> simp [flatSmall, flatBig, tupJ]

/-- Witness for C3 at the `TestSmallOOBTree` fixture. -/
theorem c3_witness :
    decode_zodb_record fixTreeB = .ok fixTreeJ :=
  c3_small_btree_flatten.1 fixTreeB
    (.vtuple [.vstr (sb "BTrees.OOBTree"), .vstr (sb "OOBTree")])
    (sb "BTrees.OOBTree") (sb "OOBTree")
    [.vstr (sb "a"), .vint 1, .vstr (sb "b"), .vint 2]
    fixTreeStateB []
    [.jarr [.jstr (sb "a"), .jint 1], .jarr [.jstr (sb "b"), .jint 2]]
    rfl rfl rfl rfl rfl

/-! ### C10: tuples as `@t` markers, plain dicts as objects -/

/-- C10: a pickled tuple comes back from `pickle_to_dict` as the
single-key `@t` marker object with the same number of elements, while a
pickled dict whose keys are all plain strings comes back as an ordinary
JSON object. -/
theorem c10_tuple_marker_plain_dict :
    (∀ (B : List Nat) (xs : List Value) (rest : List Nat),
       decodeStreamR B = .ok (.vtuple xs, rest) →
       pickle_to_dict B = .ok (.jobj [(sb "@t", .jarr (writeJL (recognizeL xs)))]) ∧
       (writeJL (recognizeL xs)).length = xs.length) ∧
    (∀ (B : List Nat) (ps : List (Value × Value)) (rest : List Nat),
       decodeStreamR B = .ok (.vdict ps, rest) →
       plainKeys ps = true →
       pickle_to_dict B = .ok (.jobj (writeObjL (recognizeP ps)))) := by
  constructor
  · intro B xs rest h1
    unfold pickle_to_dict
    rw [h1]
    simp [recognize, writeJ, writeJL_length, recognizeL_length]
  · intro B ps rest h1 h2
    unfold pickle_to_dict
    rw [h1]
    simp only [recognize, writeJ]
    rw [plainKeys_recognizeP, h2]
    simp only [if_true]

set_option maxRecDepth 100000 in
/-- The dict fixture decodes to the expected two-entry dict. -/
theorem fixDictB_decodes : decodeStreamR fixDictB =
    .ok (.vdict [(.vstr (sb "name"), .vstr (sb "Alice")),
                 (.vstr (sb "age"), .vint 30)], []) := rfl

/-- Witness for C10: the empty tuple gives `@t: []`, and the pickle of
`\x7bname: Alice, age: 30\x7d` gives a plain object. -/
theorem c10_witness :
    pickle_to_dict [128, 3, 41, 46] = .ok (.jobj [(sb "@t", .jarr [])]) ∧
    pickle_to_dict fixDictB =
      .ok (.jobj [(sb "name", .jstr (sb "Alice")), (sb "age", .jint 30)]) :=
  ⟨((c10_tuple_marker_plain_dict.1 [128, 3, 41, 46] [] []) rfl).1,
   c10_tuple_marker_plain_dict.2 fixDictB
     [(.vstr (sb "name"), .vstr (sb "Alice")), (.vstr (sb "age"), .vint 30)]
     [] fixDictB_decodes rfl⟩

/-- A value whose shape is neither the class 2-tuple nor a class Global has
no class identity. -/
theorem classOf_none_of (v : Value)
    (h1 : ∀ m q, v ≠ .vtuple [.vstr m, .vstr q])
    (h2 : ∀ m q, v ≠ .vglobal m q) : classOf v = none := by
  unfold classOf
  split
  · exact absurd rfl (h1 _ _)
  · exact absurd rfl (h2 _ _)
  · rfl

/-- C2: `decode_zodb_record` splits the input into two back-to-back pickle
streams at the first stream's unconsumed remainder; when the first stream
yields a class 2-tuple OR a class Global it returns the `@cls`/`@s`
envelope built from the recognized second stream, and only when it yields
neither shape does it fail with `BadRecord`. -/
theorem c2_record_framing (bs rest : List Nat) (v1 : Value)
    (h1 : decodeStreamR bs = .ok (v1, rest)) :
    ((∀ m q, v1 ≠ .vtuple [.vstr m, .vstr q]) ∧ (∀ m q, v1 ≠ .vglobal m q) →
      decode_zodb_record bs = .error .badRecord) ∧
    (∀ m q v2 rest2,
      (v1 = .vtuple [.vstr m, .vstr q] ∨ v1 = .vglobal m q) →
      decodeStreamR rest = .ok (v2, rest2) →
      decode_zodb_record bs = .ok (writeJ (recognize (.vrecord m q v2)))) := by
  constructor
  · rintro ⟨ha, hb⟩
    unfold decode_zodb_record
    simp only [h1, classOf_none_of v1 ha hb]
  · rintro m q v2 rest2 (hv | hv) h2 <;> subst hv <;>
      unfold decode_zodb_record <;> simp only [h1, classOf, h2]

/-- The framing characterization, applied to a concrete two-pickle record
whose first pickle is the class 2-tuple `(myapp, Doc)`. -/
theorem c2_witness :
    decodeStreamR fixDocB =
      .ok (.vtuple [.vstr (sb "myapp"), .vstr (sb "Doc")], [128, 3, 78, 46]) ∧
    decode_zodb_record fixDocB =
      .ok (writeJ (recognize (.vrecord (sb "myapp") (sb "Doc") .vnone))) :=
  ⟨rfl, (c2_record_framing fixDocB [128, 3, 78, 46] _ rfl).2
    (sb "myapp") (sb "Doc") .vnone [] (Or.inl rfl) rfl⟩

/-- C2, refutation of the `otherwise BadRecord` clause: a record whose
first pickle yields a class Global — not a 2-tuple — is decoded to the
same envelope, not rejected with `BadRecord`. -/
theorem c2_counterexample :
    decodeStreamR fixDocGB =
      .ok (.vglobal (sb "myapp") (sb "Doc"), [128, 3, 78, 46]) ∧
    (∀ m q, Value.vglobal (sb "myapp") (sb "Doc") ≠ .vtuple [.vstr m, .vstr q]) ∧
    decode_zodb_record fixDocGB = .ok fixDocJ :=
  ⟨rfl, fun _ _ h => Value.noConfusion h, rfl⟩

/-- C7: a Reduce whose callable is `datetime.datetime`, applied to a
10-byte wire blob with in-range fields (optionally plus a recognized
timezone), is rewritten by the recognizer to the `@dt` ISO-8601 marker;
and `pickle_to_json` of the pickle of `datetime(2025,6,15,12,30,45)`
yields exactly the JSON text of that marker object. -/
theorem c7_datetime_marker (b : List Nat) (y mo d hh mi s us : Nat)
    (hlen : b.length = 10)
    (hu : unpackDT b = (y, mo, d, hh, mi, s, us))
    (hv : validDT y mo d hh mi s us = true) :
    recognize (.vreduce (sb "datetime") (sb "datetime") [.vbytes b] none [] []) =
      .vknown (.dt y mo d hh mi s us none) ∧
    (∀ w tz, tzOfValue (recognize w) = some tz →
      recognize (.vreduce (sb "datetime") (sb "datetime") [.vbytes b, w] none [] []) =
        .vknown (.dt y mo d hh mi s us (some tz))) ∧
    writeJ (.vknown (.dt y mo d hh mi s us none)) =
      .jobj [(sb "@dt", .jstr (isoDate y mo d ++ 84 :: isoTime hh mi s us))] ∧
    pickle_to_json fixDtB = .ok ([123] ++ sb "\"@dt\":\"2025-06-15T12:30:45\"" ++ [125]) := by
  refine ⟨?_, ?_, rfl, rfl⟩
  · have e2 : recNode (sb "datetime") (sb "datetime") [.vbytes b] none [] [] =
        (if b.length = 10 then
          match unpackDT b with
          | (y, mo, d, h, mi, s, us) =>
            if validDT y mo d h mi s us then Value.vknown (.dt y mo d h mi s us none)
            else .vreduce (sb "datetime") (sb "datetime") [.vbytes b] none [] []
         else .vreduce (sb "datetime") (sb "datetime") [.vbytes b] none [] []) := rfl
    rw [show recognize (.vreduce (sb "datetime") (sb "datetime") [.vbytes b] none [] []) =
        recNode (sb "datetime") (sb "datetime") [.vbytes b] none [] [] from rfl, e2]
    simp only [hlen, hu, hv, if_true, ite_true]
  · intro w tz htz
    have e4 : recNode (sb "datetime") (sb "datetime") [.vbytes b, recognize w] none [] [] =
        (if b.length = 10 then
          match tzOfValue (recognize w) with
          | some tz =>
            match unpackDT b with
            | (y, mo, d, h, mi, s, us) =>
              if validDT y mo d h mi s us then Value.vknown (.dt y mo d h mi s us (some tz))
              else .vreduce (sb "datetime") (sb "datetime") [.vbytes b, recognize w] none [] []
          | none => .vreduce (sb "datetime") (sb "datetime") [.vbytes b, recognize w] none [] []
         else .vreduce (sb "datetime") (sb "datetime") [.vbytes b, recognize w] none [] []) := rfl
    rw [show recognize (.vreduce (sb "datetime") (sb "datetime") [.vbytes b, w] none [] []) =
        recNode (sb "datetime") (sb "datetime") [.vbytes b, recognize w] none [] [] from rfl, e4]
    simp only [hlen, htz, hu, hv, if_true, ite_true]

/-- The datetime recognition, applied to the wire blob of
`datetime(2025,6,15,12,30,45)`. -/
theorem c7_witness :
    recognize (.vreduce (sb "datetime") (sb "datetime")
        [.vbytes [7, 233, 6, 15, 12, 30, 45, 0, 0, 0]] none [] []) =
      .vknown (.dt 2025 6 15 12 30 45 0 none) ∧
    pickle_to_json fixDtB = .ok ([123] ++ sb "\"@dt\":\"2025-06-15T12:30:45\"" ++ [125]) :=
  ⟨(c7_datetime_marker [7, 233, 6, 15, 12, 30, 45, 0, 0, 0]
      2025 6 15 12 30 45 0 rfl rfl rfl).1,
   (c7_datetime_marker [7, 233, 6, 15, 12, 30, 45, 0, 0, 0]
      2025 6 15 12 30 45 0 rfl rfl rfl).2.2.2⟩

theorem objKeysL_append (a b : List JValue) :
    objKeysL (a ++ b) = objKeysL a ++ objKeysL b := by
  induction a with
  | nil => simp [objKeysL]
  | cons x tl ih => simp [objKeysL, ih]

theorem objKeysP_append (a b : List (List Nat × JValue)) :
    objKeysP (a ++ b) = objKeysP a ++ objKeysP b := by
  induction a with
  | nil => simp [objKeysP]
  | cons x tl ih => obtain ⟨k, v⟩ := x; simp [objKeysP, ih]

theorem objKeysL_tupJ (j : JValue) (l : List JValue) (h : tupJ j = some l) :
    ∀ k, k ∈ objKeysL l → k ∈ objKeysJ j := by
  unfold tupJ at h
  split at h
  · next k0 xs =>
    split at h
    · cases h
      intro k hk
      simp only [objKeysJ, objKeysP, objKeysL, List.append_nil]
      exact List.mem_cons_of_mem _ hk
    · cases h
  · cases h

theorem objKeysL_kvJ : ∀ (flat ps : List JValue), kvJ flat = some ps →
    ∀ k, k ∈ objKeysL ps → k ∈ objKeysL flat
  | [], ps, h => by
    simp [kvJ] at h
    subst h
    simp
  | [x], ps, h => by simp [kvJ] at h
  | a :: b :: tl, ps, h => by
    cases hkv : kvJ tl with
    | none => rw [kvJ, hkv] at h; cases h
    | some r =>
      rw [kvJ, hkv] at h
      cases h
      intro k hk
      have ih := objKeysL_kvJ tl r hkv k
      simp only [objKeysL, objKeysJ, List.append_nil, List.mem_append] at hk ih ⊢
      tauto

theorem mem_objKeysL_single (x : JValue) (k : List Nat)
    (h : k ∈ objKeysJ x) : k ∈ objKeysL [x] := by
  simp [objKeysL, h]

theorem mem_objKeysL_pairL (a b : JValue) (k : List Nat)
    (h : k ∈ objKeysJ a) : k ∈ objKeysL [a, b] := by simp [objKeysL, h]

theorem mem_objKeysL_pairR (a b : JValue) (k : List Nat)
    (h : k ∈ objKeysJ b) : k ∈ objKeysL [a, b] := by simp [objKeysL, h]

theorem objKeys_flatSmallKV (kv : Bool) (flat : List JValue) (r : JValue)
    (h : flatSmallKV kv flat = some r) :
    ∀ k, k ∈ objKeysJ r → k = sb "@kv" ∨ k = sb "@ks" ∨ k ∈ objKeysL flat := by
  cases kv with
  | true =>
    cases hkv : kvJ flat with
    | none => simp [flatSmallKV, hkv] at h
    | some ps =>
      simp only [flatSmallKV, if_true, hkv, Option.map_some] at h
      cases h
      intro k hk
      simp only [objKeysJ, objKeysP, objKeysL, List.append_nil, List.mem_cons,
        List.mem_singleton] at hk
      rcases hk with hk | hk
      · exact Or.inl hk
      · exact Or.inr (Or.inr (objKeysL_kvJ flat ps hkv k (by simpa using hk)))
  | false =>
    simp only [flatSmallKV, Bool.false_eq_true, if_false] at h
    cases h
    intro k hk
    simp only [objKeysJ, objKeysP, objKeysL, List.append_nil, List.mem_cons] at hk
    rcases hk with hk | hk
    · exact Or.inr (Or.inl hk)
    · exact Or.inr (Or.inr (by simpa using hk))

theorem objKeys_flatSmall (four kv : Bool) (j r : JValue)
    (h : flatSmall four kv j = some r) :
    ∀ k, k ∈ objKeysJ r → k = sb "@kv" ∨ k = sb "@ks" ∨ k ∈ objKeysJ j := by
  unfold flatSmall at h
  repeat' split at h
  all_goals try cases h
  all_goals
    intro k hk
  all_goals
    rcases objKeys_flatSmallKV _ _ _ h k hk with hc | hc | hc
  all_goals try exact Or.inl hc
  all_goals try exact Or.inr (Or.inl hc)
  all_goals refine Or.inr (Or.inr ?_)
  all_goals
    repeat first
      | exact hc
      | refine objKeysL_tupJ _ _ (by assumption) k ?_
      | refine mem_objKeysL_single _ _ ?_

theorem objKeys_flatBig (four : Bool) (j : JValue) :
    ∀ k, k ∈ objKeysJ (flatBig four j) →
      k = sb "@children" ∨ k = sb "@first" ∨ k ∈ objKeysJ j := by
  unfold flatBig
  repeat' split
  all_goals intro k hk
  all_goals try exact Or.inr (Or.inr hk)
  all_goals
    simp only [objKeysJ, objKeysP, List.append_nil, List.mem_cons] at hk
  all_goals rcases hk with hk | hk
  · exact Or.inl hk
  · rw [List.mem_append] at hk
    rcases hk with hk | hk
    · exact Or.inr (Or.inr (objKeysL_tupJ _ _ (by assumption) k
        (mem_objKeysL_pairL _ _ _ (objKeysL_tupJ _ _ (by assumption) k hk))))
    · rcases List.mem_cons.1 hk with hk | hk
      · exact Or.inr (Or.inl hk)
      · exact Or.inr (Or.inr (objKeysL_tupJ _ _ (by assumption) k
          (mem_objKeysL_pairR _ _ _ hk)))

theorem objKeys_flatState (m q : List Nat) (j : JValue) :
    ∀ k, k ∈ objKeysJ (flatState m q j) →
      k = sb "@kv" ∨ k = sb "@ks" ∨ k = sb "@children" ∨ k = sb "@first" ∨
        k ∈ objKeysJ j := by
  unfold flatState
  split
  · intro k hk; exact Or.inr (Or.inr (Or.inr (Or.inr hk)))
  · next four kv hbt =>
    split
    · next r hr =>
      intro k hk
      rcases objKeys_flatSmall _ _ j r hr k hk with hc | hc | hc
      · exact Or.inl hc
      · exact Or.inr (Or.inl hc)
      · exact Or.inr (Or.inr (Or.inr (Or.inr hc)))
    · intro k hk
      rcases objKeys_flatBig _ j k hk with hc | hc | hc
      · exact Or.inr (Or.inr (Or.inl hc))
      · exact Or.inr (Or.inr (Or.inr (Or.inl hc)))
      · exact Or.inr (Or.inr (Or.inr (Or.inr hc)))

theorem c8K (kn : Known) :
    ∀ k, k ∈ objKeysJ (writeK kn) → isAt k = true → k ∈ reservedKeys := by
  cases kn with
  | dt y mo d h mi s us tz =>
    rcases tz with _ | (min | n | n) <;>
      (intro k hk ha
       simp only [writeK, writeTzObj, objKeysJ, objKeysP, objKeysL, List.append_nil,
         List.nil_append, List.mem_cons, List.not_mem_nil, or_false,
         List.mem_singleton] at hk
       first
         | (subst hk; decide)
         | (rcases hk with rfl | rfl | rfl
            · decide
            · decide
            · exact absurd ha (by decide)))
  | date y mo d =>
    intro k hk ha
    simp only [writeK, objKeysJ, objKeysP, objKeysL, List.append_nil,
      List.nil_append, List.mem_cons, List.not_mem_nil, or_false,
      List.mem_singleton] at hk
    subst hk; decide
  | time h mi s us tz =>
    rcases tz with _ | (min | n | n) <;>
      (intro k hk ha
       simp only [writeK, writeTzObj, objKeysJ, objKeysP, objKeysL, List.append_nil,
         List.nil_append, List.mem_cons, List.not_mem_nil, or_false,
         List.mem_singleton] at hk
       first
         | (subst hk; decide)
         | (rcases hk with rfl | rfl | rfl
            · decide
            · decide
            · exact absurd ha (by decide)))
  | td d s us =>
    intro k hk ha
    simp only [writeK, objKeysJ, objKeysP, objKeysL, List.append_nil,
      List.nil_append, List.mem_cons, List.not_mem_nil, or_false,
      List.mem_singleton] at hk
    subst hk; decide
  | dec s =>
    intro k hk ha
    simp only [writeK, objKeysJ, objKeysP, objKeysL, List.append_nil,
      List.nil_append, List.mem_cons, List.not_mem_nil, or_false,
      List.mem_singleton] at hk
    subst hk; decide
  | uuid n =>
    intro k hk ha
    simp only [writeK, objKeysJ, objKeysP, objKeysL, List.append_nil,
      List.nil_append, List.mem_cons, List.not_mem_nil, or_false,
      List.mem_singleton] at hk
    subst hk; decide

mutual

theorem c8J : ∀ (v : Value) (k : List Nat),
    k ∈ objKeysJ (writeJ v) → isAt k = true → k ∈ reservedKeys
  | .vnone, k, hk, ha => by simp [writeJ, objKeysJ] at hk
  | .vbool b, k, hk, ha => by simp [writeJ, objKeysJ] at hk
  | .vint n, k, hk, ha => by
    simp only [writeJ] at hk
    split at hk
    · simp [objKeysJ] at hk
    · simp [objKeysJ, objKeysP, objKeysL] at hk
      subst hk; decide
  | .vfloat bits, k, hk, ha => by
    revert hk
    unfold writeJ
    repeat' split
    all_goals intro hk
    all_goals try (simp [objKeysJ] at hk; done)
    all_goals (simp [objKeysJ, objKeysP, objKeysL] at hk; subst hk; decide)
  | .vstr s, k, hk, ha => by simp [writeJ, objKeysJ] at hk
  | .vbytes bs, k, hk, ha => by
    simp [writeJ, objKeysJ, objKeysP, objKeysL] at hk
    subst hk; decide
  | .vlist xs, k, hk, ha => by
    simp only [writeJ, objKeysJ] at hk
    exact c8L xs k hk ha
  | .vtuple xs, k, hk, ha => by
    simp only [writeJ, objKeysJ, objKeysP, List.append_nil, List.mem_cons] at hk
    rcases hk with rfl | hk
    · decide
    · exact c8L xs k hk ha
  | .vdict ps, k, hk, ha => by
    cases hp : plainKeys ps with
    | true =>
      simp only [writeJ, hp, if_true, objKeysJ] at hk
      exact c8O ps k hp hk ha
    | false =>
      simp only [writeJ, hp, Bool.false_eq_true, if_false, objKeysJ, objKeysP,
        List.append_nil, List.mem_cons] at hk
      rcases hk with rfl | hk
      · decide
      · exact c8P ps k hk ha
  | .vset xs, k, hk, ha => by
    simp only [writeJ, objKeysJ, objKeysP, List.append_nil, List.mem_cons] at hk
    rcases hk with rfl | hk
    · decide
    · exact c8L xs k hk ha
  | .vfset xs, k, hk, ha => by
    simp only [writeJ, objKeysJ, objKeysP, List.append_nil, List.mem_cons] at hk
    rcases hk with rfl | hk
    · decide
    · exact c8L xs k hk ha
  | .vglobal m q, k, hk, ha => by
    simp [writeJ, objKeysJ, objKeysP, objKeysL] at hk
    subst hk; decide
  | .vref oid h, k, hk, ha => by
    cases h <;>
      (simp [writeJ, objKeysJ, objKeysP, objKeysL] at hk; subst hk; decide)
  | .vreduce m q args st li di, k, hk, ha => by
    simp only [writeJ, objKeysJ, objKeysP, objKeysL, objKeysP_append,
      List.append_nil, List.nil_append, List.mem_cons, List.mem_append,
      List.not_mem_nil, or_false] at hk
    rcases hk with rfl | rfl | rfl | hk | (hk | hk) | hk
    · decide
    · exact absurd ha (by decide)
    · exact absurd ha (by decide)
    · exact c8L args k hk ha
    · exact c8St st k hk ha
    · exact c8Li li k hk ha
    · exact c8Di di k hk ha
  | .vknown kn, k, hk, ha => by
    simp only [writeJ] at hk
    exact c8K kn k hk ha
  | .vrecord m q s, k, hk, ha => by
    simp only [writeJ, objKeysJ, objKeysP, objKeysL, List.append_nil,
      List.nil_append, List.mem_cons, List.not_mem_nil, or_false] at hk
    rcases hk with rfl | rfl | hk
    · decide
    · decide
    · rcases objKeys_flatState m q (writeJ s) k hk with hc | hc | hc | hc | hc
      · subst hc; decide
      · subst hc; decide
      · subst hc; decide
      · subst hc; decide
      · exact c8J s k hc ha

theorem c8St : ∀ (st : Option Value) (k : List Nat),
    k ∈ objKeysP (writeJSt st) → isAt k = true → k ∈ reservedKeys
  | none, k, hk, ha => by simp [writeJSt, objKeysP] at hk
  | some s, k, hk, ha => by
    simp only [writeJSt, objKeysP, List.append_nil, List.mem_cons,
      List.not_mem_nil, or_false] at hk
    rcases hk with rfl | hk
    · exact absurd ha (by decide)
    · exact c8J s k hk ha

theorem c8Li : ∀ (li : List Value) (k : List Nat),
    k ∈ objKeysP (writeJLi li) → isAt k = true → k ∈ reservedKeys
  | [], k, hk, ha => by simp [writeJLi, objKeysP] at hk
  | x :: tl, k, hk, ha => by
    simp only [writeJLi, objKeysP, objKeysJ, objKeysL, List.append_nil,
      List.mem_cons, List.mem_append, List.not_mem_nil, or_false] at hk
    rcases hk with rfl | hk | hk
    · exact absurd ha (by decide)
    · exact c8J x k hk ha
    · exact c8L tl k hk ha

theorem c8Di : ∀ (di : List (Value × Value)) (k : List Nat),
    k ∈ objKeysP (writeJDi di) → isAt k = true → k ∈ reservedKeys
  | [], k, hk, ha => by simp [writeJDi, objKeysP] at hk
  | (a, b) :: tl, k, hk, ha => by
    simp only [writeJDi, objKeysP, objKeysJ, objKeysL, List.append_nil,
      List.mem_cons, List.mem_append, List.not_mem_nil, or_false] at hk
    rcases hk with rfl | (hk | hk) | hk
    · exact absurd ha (by decide)
    · exact c8J a k hk ha
    · exact c8J b k hk ha
    · exact c8P tl k hk ha

theorem c8L : ∀ (xs : List Value) (k : List Nat),
    k ∈ objKeysL (writeJL xs) → isAt k = true → k ∈ reservedKeys
  | [], k, hk, ha => by simp [writeJL, objKeysL] at hk
  | x :: tl, k, hk, ha => by
    simp only [writeJL, objKeysL, List.mem_append] at hk
    rcases hk with hk | hk
    · exact c8J x k hk ha
    · exact c8L tl k hk ha

theorem c8P : ∀ (ps : List (Value × Value)) (k : List Nat),
    k ∈ objKeysL (writePairs ps) → isAt k = true → k ∈ reservedKeys
  | [], k, hk, ha => by simp [writePairs, objKeysL] at hk
  | (a, b) :: tl, k, hk, ha => by
    simp only [writePairs, objKeysL, objKeysJ, List.append_nil,
      List.mem_append] at hk
    rcases hk with (hk | hk) | hk
    · exact c8J a k hk ha
    · exact c8J b k hk ha
    · exact c8P tl k hk ha

theorem c8O : ∀ (ps : List (Value × Value)) (k : List Nat),
    plainKeys ps = true → k ∈ objKeysP (writeObjL ps) → isAt k = true →
    k ∈ reservedKeys
  | [], k, hp, hk, ha => by simp [writeObjL, objKeysP] at hk
  | p :: tl, k, hp, hk, ha => by
    obtain ⟨kv, v⟩ := p
    cases kv <;> simp only [plainKeys, Bool.and_eq_true, Bool.not_eq_true',
      Bool.false_eq_true] at hp
    case vstr s =>
      simp only [writeObjL, objKeysP, List.mem_cons, List.mem_append] at hk
      rcases hk with rfl | hk | hk
      · rw [hp.1] at ha; cases ha
      · exact c8J v k hk ha
      · exact c8O tl k hp.2 hk ha

end

/-- C8: every object key beginning with `@` anywhere in the writer's
output is one of the reserved marker keys of spec §3.2; user dict keys
never collide because a dict with any non-string or `@`-prefixed key is
written in the `@d` pair-list form. -/
theorem c8_marker_exclusivity (v : Value) (k : List Nat)
    (hk : k ∈ objKeysJ (writeJ v)) (ha : isAt k = true) : k ∈ reservedKeys :=
  c8J v k hk ha

/-- Marker exclusivity, applied to the written empty tuple and its `@t`
key. -/
theorem c8_witness :
    sb "@t" ∈ objKeysJ (writeJ (.vtuple [])) ∧ isAt (sb "@t") = true ∧
    sb "@t" ∈ reservedKeys :=
  ⟨by decide, by decide, c8_marker_exclusivity (.vtuple []) (sb "@t")
    (by decide) (by decide)⟩

/-! ### Byte-level round-trip lemmas -/
theorem wrLE_length (k n : Nat) : (wrLE k n).length = k := by
  induction k generalizing n with
  | zero => rfl
  | succ k ih => simp [wrLE, ih]

theorem rdLE_wrLE (k n : Nat) (h : n < 2 ^ (8 * k)) : rdLE (wrLE k n) = n := by
  induction k generalizing n with
  | zero => simp at h; simp [wrLE, rdLE, h]
  | succ k ih =>
    have hp : (2 : Nat) ^ (8 * (k + 1)) = 2 ^ (8 * k) * 256 := by
      rw [show 8 * (k + 1) = 8 * k + 8 by ring, pow_add]
      norm_num
    rw [hp] at h
    have h2 : n / 256 < 2 ^ (8 * k) := by omega
    simp only [wrLE, rdLE]
    rw [ih _ h2]
    omega

theorem wrLE_lt (k n : Nat) : ∀ b ∈ wrLE k n, b < 256 := by
  induction k generalizing n with
  | zero => simp [wrLE]
  | succ k ih =>
    simp only [wrLE, List.mem_cons]
    rintro b (rfl | hb)
    · exact Nat.mod_lt _ (by norm_num)
    · exact ih _ b hb

theorem map_mod_self (bs : List Nat) (h : ∀ b ∈ bs, b < 256) :
    bs.map (· % 256) = bs := by
  induction bs with
  | nil => rfl
  | cons b tl ih =>
    simp only [List.map_cons, List.cons.injEq]
    exact ⟨Nat.mod_eq_of_lt (h b (by simp)), ih fun x hx => h x (by simp [hx])⟩

theorem readN_exact (n : Nat) (bs rest : List Nat) (h : bs.length = n) :
    readN n (bs ++ rest) = some (bs.map (· % 256), rest) := by
  subst h
  simp [readN, List.take_left, List.drop_left]

theorem readLine_exact (m rest : List Nat) (h10 : 10 ∉ m)
    (hlt : ∀ b ∈ m, b < 256) : readLine (m ++ 10 :: rest) = some (m, rest) := by
  induction m with
  | nil => simp [readLine]
  | cons b tl ih =>
    have hb : b < 256 := hlt b (by simp)
    have hb10 : b ≠ 10 := fun h => h10 (h ▸ List.mem_cons_self b tl)
    simp only [List.cons_append, readLine, Nat.mod_eq_of_lt hb, if_neg hb10,
      List.append_eq]
    rw [ih (fun h => h10 (List.mem_cons_of_mem b h))
        (fun x hx => hlt x (List.mem_cons_of_mem b hx))]

theorem rdBE_wrBE (k n : Nat) (h : n < 2 ^ (8 * k)) : rdBE (wrBE k n) = n := by
  simp [rdBE, wrBE, rdLE_wrLE k n h]

theorem wrBE_length (k n : Nat) : (wrBE k n).length = k := by
  simp [wrBE, wrLE_length]

theorem wrBE_lt (k n : Nat) : ∀ b ∈ wrBE k n, b < 256 := by
  simp only [wrBE, List.mem_reverse]
  exact wrLE_lt k n

theorem rdLE_append (a b : List Nat) :
    rdLE (a ++ b) = rdLE a + 256 ^ a.length * rdLE b := by
  induction a with
  | nil => simp [rdLE]
  | cons x tl ih => simp [rdLE, ih]; ring

theorem natBytesLE_lt (f m : Nat) : ∀ b ∈ natBytesLE f m, b < 256 := by
  induction f generalizing m with
  | zero => simp [natBytesLE]
  | succ f ih =>
    cases m with
    | zero => simp [natBytesLE]
    | succ m =>
      simp only [natBytesLE, List.mem_cons]
      rintro b (rfl | hb)
      · exact Nat.mod_lt _ (by norm_num)
      · exact ih _ b hb

theorem rdLE_natBytesLE (f m : Nat) (h : m < 256 ^ f) :
    rdLE (natBytesLE f m) = m := by
  induction f generalizing m with
  | zero => simp at h; simp [natBytesLE, h, rdLE]
  | succ f ih =>
    cases m with
    | zero => simp [natBytesLE, rdLE]
    | succ m =>
      simp only [natBytesLE, rdLE]
      rw [ih ((m + 1) / 256) (by rw [pow_succ] at h; omega)]
      omega

theorem natBytesLE_ne_nil (f m : Nat) (hf : 0 < f) (hm : 0 < m) :
    natBytesLE f m ≠ [] := by
  cases f with
  | zero => omega
  | succ f =>
    cases m with
    | zero => omega
    | succ m => simp [natBytesLE]

theorem wrLE_getLast (k n : Nat) (hk : 0 < k) :
    (wrLE k n).getLast? = some (n / 256 ^ (k - 1) % 256) := by
  induction k generalizing n with
  | zero => omega
  | succ k ih =>
    cases k with
    | zero => simp [wrLE]
    | succ k =>
      have h1 : wrLE (k + 1 + 1) n = n % 256 :: wrLE (k + 1) (n / 256) := rfl
      have h2 : wrLE (k + 1) (n / 256) = n / 256 % 256 :: wrLE k (n / 256 / 256) := rfl
      have h3 : n / 256 / 256 ^ (k + 1 - 1) = n / 256 ^ (k + 1 + 1 - 1) := by
        rw [Nat.div_div_eq_div_mul]
        congr 1
        simp only [Nat.add_sub_cancel]
        rw [pow_succ]
        ring
      rw [h1, h2, List.getLast?_cons_cons, ← h2, ih (n / 256) (by omega), h3]

theorem tcLenAux_spec : ∀ (f k cap m : Nat), m ≤ cap * 256 ^ f →
    ∃ j, tcLenAux f k cap m = k + j ∧ m ≤ cap * 256 ^ j
  | 0, k, cap, m, h => ⟨0, by simp [tcLenAux], by simpa using h⟩
  | f + 1, k, cap, m, h => by
    simp only [tcLenAux]
    split
    · next hle => exact ⟨0, rfl, by simpa using hle⟩
    · next hgt =>
      have h2 : m ≤ cap * 256 * 256 ^ f := by
        rw [pow_succ] at h
        calc m ≤ cap * (256 ^ f * 256) := h
        _ = cap * 256 * 256 ^ f := by ring
      obtain ⟨j, hj, hmj⟩ := tcLenAux_spec f (k + 1) (cap * 256) m h2
      refine ⟨j + 1, by omega, ?_⟩
      calc m ≤ cap * 256 * 256 ^ j := hmj
      _ = cap * 256 ^ (j + 1) := by rw [pow_succ]; ring

theorem pow2_8k (k : Nat) : (2 : Nat) ^ (8 * k) = 256 ^ k := by
  rw [pow_mul]
  norm_num

theorem rdTC_last_lt (bs : List Nat) (b : Nat) (h : bs.getLast? = some b)
    (hb : b % 256 < 128) : rdTC bs = rdLE bs := by
  unfold rdTC
  rw [h]
  simp [Nat.not_le.mpr hb]

theorem rdTC_last_ge (bs : List Nat) (b : Nat) (h : bs.getLast? = some b)
    (hb : 128 ≤ b % 256) : rdTC bs = (rdLE bs : Int) - 2 ^ (8 * bs.length) := by
  unfold rdTC
  rw [h]
  simp [hb]

theorem rdTC_tcBytes (n : Int) : rdTC (tcBytes n) = n := by
  by_cases h0 : n = 0
  · subst h0
    simp [tcBytes, rdTC]
  by_cases hp : 0 < n
  · have hm : 0 < n.toNat := by omega
    have hlt : n.toNat < 256 ^ (n.toNat + 1) :=
      lt_of_lt_of_le (Nat.lt_two_pow _)
        (le_trans (Nat.pow_le_pow_left (by norm_num) _)
          (Nat.pow_le_pow_right (by norm_num) (by omega)))
    have hrd : rdLE (natBytesLE (n.toNat + 1) n.toNat) = n.toNat :=
      rdLE_natBytesLE _ _ hlt
    simp only [tcBytes, if_neg h0, if_pos hp]
    split
    · next hge =>
      rw [rdTC_last_lt _ 0 (List.getLast?_concat _) (by norm_num), rdLE_append]
      simp [rdLE, hrd]
      omega
    · next hlt2 =>
      cases hgl : (natBytesLE (n.toNat + 1) n.toNat).getLast? with
      | none =>
        exfalso
        exact natBytesLE_ne_nil _ _ (by omega) hm (List.getLast?_eq_none_iff.mp hgl)
      | some b =>
        have hb : b < 256 :=
          natBytesLE_lt (n.toNat + 1) n.toNat b
            (List.mem_of_mem_getLast? (by simp [hgl]))
        have hbge : ¬ 128 ≤ b := fun hc => hlt2 (by rw [hgl]; simpa using hc)
        rw [rdTC_last_lt _ b hgl (by rw [Nat.mod_eq_of_lt hb]; omega), hrd]
        omega
  · have hneg : n < 0 := by omega
    have hm1 : 1 ≤ n.natAbs := by omega
    have hfuel : n.natAbs ≤ 128 * 256 ^ (n.natAbs + 1) := by
      have h1 : n.natAbs < 2 ^ n.natAbs := Nat.lt_two_pow n.natAbs
      have h2 : (2:Nat) ^ n.natAbs ≤ 256 ^ n.natAbs :=
        Nat.pow_le_pow_left (by norm_num) _
      have h3 : (256:Nat) ^ n.natAbs ≤ 256 ^ (n.natAbs + 1) :=
        Nat.pow_le_pow_right (by norm_num) (by omega)
      omega
    obtain ⟨j, hj, hmj⟩ := tcLenAux_spec (n.natAbs + 1) 1 128 n.natAbs hfuel
    simp only [tcBytes, if_neg h0, if_neg hp]
    rw [hj]
    have h256j : (0:Nat) < 256 ^ j := Nat.pos_pow_of_pos _ (by norm_num)
    have hval : (2:Nat) ^ (8 * (1 + j)) = 256 ^ j * 256 := by
      rw [pow2_8k, show 1 + j = j + 1 by omega, pow_succ]
    have hvlt : 2 ^ (8 * (1 + j)) - n.natAbs < 2 ^ (8 * (1 + j)) := by
      have : (0:Nat) < 2 ^ (8 * (1 + j)) := Nat.pos_pow_of_pos _ (by norm_num)
      omega
    have hdivge : 128 ≤ (2 ^ (8 * (1 + j)) - n.natAbs) / 256 ^ j := by
      rw [Nat.le_div_iff_mul_le h256j, hval]
      have h2 : 128 * 256 ^ j + 128 * 256 ^ j = 256 ^ j * 256 := by ring
      omega
    have hdivlt : (2 ^ (8 * (1 + j)) - n.natAbs) / 256 ^ j < 256 := by
      rw [Nat.div_lt_iff_lt_mul h256j]
      calc 2 ^ (8 * (1 + j)) - n.natAbs < 2 ^ (8 * (1 + j)) := hvlt
      _ = 256 ^ j * 256 := hval
      _ = 256 * 256 ^ j := by ring
    have hsub : 1 + j - 1 = j := by omega
    have hglast : (wrLE (1 + j) (2 ^ (8 * (1 + j)) - n.natAbs)).getLast? =
        some ((2 ^ (8 * (1 + j)) - n.natAbs) / 256 ^ j % 256) := by
      rw [wrLE_getLast _ _ (by omega), hsub]
    rw [rdTC_last_ge _ _ hglast (by
      rw [Nat.mod_eq_of_lt hdivlt, Nat.mod_eq_of_lt hdivlt]
      exact hdivge)]
    rw [wrLE_length, rdLE_wrLE _ _ hvlt]
    have hmle : n.natAbs ≤ 2 ^ (8 * (1 + j)) := by
      rw [hval]
      have h2 : 128 * 256 ^ j + 128 * 256 ^ j = 256 ^ j * 256 := by ring
      omega
    have hcast : ((2:Int) ^ (8 * (1 + j))) = ((2 ^ (8 * (1 + j)) : Nat) : Int) := by
      push_cast
      ring
    rw [hcast]
    omega

theorem tcBytes_lt (n : Int) : ∀ b ∈ tcBytes n, b < 256 := by
  intro b hb
  unfold tcBytes at hb
  split at hb
  · simp at hb
  · split at hb
    · simp only [] at hb
      split at hb
      · rcases List.mem_append.1 hb with h | h
        · exact natBytesLE_lt _ _ b h
        · simp at h; omega
      · exact natBytesLE_lt _ _ b hb
    · exact wrLE_lt _ _ b hb

theorem step_none (f : Nat) (rest : List Nat) (st : MSt) :
    run (f + 1) (78 :: rest) st = run f rest (push .vnone st) := rfl

theorem step_true (f : Nat) (rest : List Nat) (st : MSt) :
    run (f + 1) (136 :: rest) st = run f rest (push (.vbool true) st) := rfl

theorem step_false (f : Nat) (rest : List Nat) (st : MSt) :
    run (f + 1) (137 :: rest) st = run f rest (push (.vbool false) st) := rfl

theorem step_emptyDict (f : Nat) (rest : List Nat) (st : MSt) :
    run (f + 1) (125 :: rest) st = run f rest (push (.vdict []) st) := rfl

theorem step_emptyList (f : Nat) (rest : List Nat) (st : MSt) :
    run (f + 1) (93 :: rest) st = run f rest (push (.vlist []) st) := rfl

theorem step_emptyTuple (f : Nat) (rest : List Nat) (st : MSt) :
    run (f + 1) (41 :: rest) st = run f rest (push (.vtuple []) st) := rfl

theorem step_mark (f : Nat) (rest : List Nat) (st : MSt) :
    run (f + 1) (40 :: rest) st =
      run f rest { st with marks := st.stack.length :: st.marks } := rfl

theorem step_binint1 (f n : Nat) (rest : List Nat) (st : MSt) (h : n < 256) :
    run (f + 1) (75 :: n :: rest) st = run f rest (push (.vint n) st) := by
  show run (f + 1) (75 :: n :: rest) st = run f rest (push (.vint n) st)
  have : rdLE [n % 256] = n := by simp [rdLE, Nat.mod_eq_of_lt h]
  simp [run, readN, this]

theorem step_memoize (f : Nat) (rest : List Nat) (st : MSt) (v : Value)
    (t : Option Nat) (s2 : List (Value × Option Nat)) (h : st.stack = (v, t) :: s2) :
    run (f + 1) (148 :: rest) st =
      run f rest { st with
        stack := (v, some st.memo.length) :: s2
        memo := memoSet st.memo st.memo.length v } := by
  simp [run, h]

theorem step_tuple1 (f : Nat) (rest : List Nat) (st : MSt) (a : Value)
    (t : Option Nat) (s2 : List (Value × Option Nat)) (h : st.stack = (a, t) :: s2) :
    run (f + 1) (133 :: rest) st =
      run f rest { st with stack := (.vtuple [a], none) :: s2 } := by
  simp [run, h]

theorem step_tuple2 (f : Nat) (rest : List Nat) (st : MSt) (a b : Value)
    (ta tb : Option Nat) (s2 : List (Value × Option Nat))
    (h : st.stack = (b, tb) :: (a, ta) :: s2) :
    run (f + 1) (134 :: rest) st =
      run f rest { st with stack := (.vtuple [a, b], none) :: s2 } := by
  simp [run, h]

theorem step_tuple3 (f : Nat) (rest : List Nat) (st : MSt) (a b c : Value)
    (ta tb tc : Option Nat) (s2 : List (Value × Option Nat))
    (h : st.stack = (c, tc) :: (b, tb) :: (a, ta) :: s2) :
    run (f + 1) (135 :: rest) st =
      run f rest { st with stack := (.vtuple [a, b, c], none) :: s2 } := by
  simp [run, h]

theorem step_reduce (f : Nat) (rest : List Nat) (st : MSt) (m q : List Nat)
    (xs : List Value) (ta tb : Option Nat) (s2 : List (Value × Option Nat))
    (h : st.stack = (.vtuple xs, ta) :: (.vglobal m q, tb) :: s2) :
    run (f + 1) (82 :: rest) st =
      run f rest { st with stack := (.vreduce m q xs none [] [], none) :: s2 } := by
  simp [run, h]

theorem step_build (f : Nat) (rest : List Nat) (st : MSt) (s : Value)
    (m q : List Nat) (args : List Value) (st0 : Option Value) (li : List Value)
    (di : List (Value × Value)) (ts tt : Option Nat) (s2 : List (Value × Option Nat))
    (h : st.stack = (s, ts) :: (.vreduce m q args st0 li di, tt) :: s2) :
    run (f + 1) (98 :: rest) st =
      run f rest { st with
        stack := (.vreduce m q args (some s) li di, tt) :: s2
        memo := patchTag st.memo tt (.vreduce m q args (some s) li di) } := by
  simp [run, h]

theorem step_binfloat (f : Nat) (bits : Nat) (rest : List Nat) (st : MSt)
    (h : bits < 2 ^ 64) :
    run (f + 1) (71 :: wrBE 8 bits ++ rest) st =
      run f rest (push (.vfloat bits) st) := by
  have hlen : (wrBE 8 bits).length = 8 := wrBE_length 8 bits
  have hrn : readN 8 (wrBE 8 bits ++ rest) = some (wrBE 8 bits, rest) := by
    rw [readN_exact 8 _ _ hlen, map_mod_self _ (wrBE_lt 8 bits)]
  simp only [run]
  norm_num
  simp only [hrn, rdBE_wrBE 8 bits h]

theorem emitStr_run (s bs : List Nat) (h : emitStr s = .ok bs)
    (hg : ∀ c ∈ s, c < 256) (f : Nat) (rest : List Nat) (st : MSt) :
    run (f + 1) (bs ++ rest) st = run f rest (push (.vstr s) st) := by
  unfold emitStr at h
  split at h
  · next hlen =>
    cases h
    have h1 : readN 1 (s.length :: (s ++ rest)) = some ([s.length % 256], s ++ rest) :=
      readN_exact 1 [s.length] (s ++ rest) rfl
    have hrd : rdLE [s.length % 256] = s.length := by
      simp [rdLE, Nat.mod_mod_of_dvd, Nat.mod_eq_of_lt (by omega : s.length < 256)]
    have h2 : readN s.length (s ++ rest) = some (s, rest) := by
      rw [readN_exact s.length s rest rfl, map_mod_self s hg]
    simp only [run, List.cons_append]
    norm_num
    simp only [h1, hrd, h2]
  · split at h
    · next hlen2 =>
      cases h
      have h1 : readN 4 (wrLE 4 s.length ++ (s ++ rest)) =
          some (wrLE 4 s.length, s ++ rest) := by
        rw [readN_exact 4 _ _ (wrLE_length 4 _), map_mod_self _ (wrLE_lt 4 _)]
      have hrd : rdLE (wrLE 4 s.length) = s.length :=
        rdLE_wrLE 4 _ (by rw [pow2_8k]; norm_num at hlen2 ⊢; omega)
      have h2 : readN s.length (s ++ rest) = some (s, rest) := by
        rw [readN_exact s.length s rest rfl, map_mod_self s hg]
      simp only [run, List.append_assoc]
      norm_num
      simp only [h1, hrd, h2]
    · split at h
      · next hlen3 =>
        cases h
        have h1 : readN 8 (wrLE 8 s.length ++ (s ++ rest)) =
            some (wrLE 8 s.length, s ++ rest) := by
          rw [readN_exact 8 _ _ (wrLE_length 8 _), map_mod_self _ (wrLE_lt 8 _)]
        have hrd : rdLE (wrLE 8 s.length) = s.length :=
          rdLE_wrLE 8 _ (by rw [pow2_8k]; norm_num at hlen3 ⊢; omega)
        have h2 : readN s.length (s ++ rest) = some (s, rest) := by
          rw [readN_exact s.length s rest rfl, map_mod_self s hg]
        simp only [run, List.append_assoc]
        norm_num
        simp only [h1, hrd, h2]
      · cases h

theorem emitBytes_run (s bs : List Nat) (h : emitBytes s = .ok bs)
    (hg : ∀ c ∈ s, c < 256) (f : Nat) (rest : List Nat) (st : MSt) :
    run (f + 1) (bs ++ rest) st = run f rest (push (.vbytes s) st) := by
  unfold emitBytes at h
  split at h
  · next hlen =>
    cases h
    have h1 : readN 1 (s.length :: (s ++ rest)) = some ([s.length % 256], s ++ rest) :=
      readN_exact 1 [s.length] (s ++ rest) rfl
    have hrd : rdLE [s.length % 256] = s.length := by
      simp [rdLE, Nat.mod_mod_of_dvd, Nat.mod_eq_of_lt (by omega : s.length < 256)]
    have h2 : readN s.length (s ++ rest) = some (s, rest) := by
      rw [readN_exact s.length s rest rfl, map_mod_self s hg]
    simp only [run, List.cons_append]
    norm_num
    simp only [h1, hrd, h2]
  · split at h
    · next hlen2 =>
      cases h
      have h1 : readN 4 (wrLE 4 s.length ++ (s ++ rest)) =
          some (wrLE 4 s.length, s ++ rest) := by
        rw [readN_exact 4 _ _ (wrLE_length 4 _), map_mod_self _ (wrLE_lt 4 _)]
      have hrd : rdLE (wrLE 4 s.length) = s.length :=
        rdLE_wrLE 4 _ (by rw [pow2_8k]; norm_num at hlen2 ⊢; omega)
      have h2 : readN s.length (s ++ rest) = some (s, rest) := by
        rw [readN_exact s.length s rest rfl, map_mod_self s hg]
      simp only [run, List.append_assoc]
      norm_num
      simp only [h1, hrd, h2]
    · split at h
      · next hlen3 =>
        cases h
        have h1 : readN 8 (wrLE 8 s.length ++ (s ++ rest)) =
            some (wrLE 8 s.length, s ++ rest) := by
          rw [readN_exact 8 _ _ (wrLE_length 8 _), map_mod_self _ (wrLE_lt 8 _)]
        have hrd : rdLE (wrLE 8 s.length) = s.length :=
          rdLE_wrLE 8 _ (by rw [pow2_8k]; norm_num at hlen3 ⊢; omega)
        have h2 : readN s.length (s ++ rest) = some (s, rest) := by
          rw [readN_exact s.length s rest rfl, map_mod_self s hg]
        simp only [run, List.append_assoc]
        norm_num
        simp only [h1, hrd, h2]
      · cases h

theorem emitInt_run (n : Int) (bs : List Nat) (h : emitInt n = .ok bs)
    (f : Nat) (rest : List Nat) (st : MSt) :
    run (f + 1) (bs ++ rest) st = run f rest (push (.vint n) st) := by
  unfold emitInt at h
  split at h
  · next hr =>
    cases h
    have h1 : readN 1 (n.toNat :: rest) = some ([n.toNat % 256], rest) :=
      readN_exact 1 [n.toNat] rest rfl
    have hrd : rdLE [n.toNat % 256] = n.toNat := by
      simp [rdLE, Nat.mod_mod_of_dvd, Nat.mod_eq_of_lt (by omega : n.toNat < 256)]
    have hc : ((n.toNat : Nat) : Int) = n := by omega
    simp only [run, List.cons_append, List.nil_append]
    norm_num
    simp only [h1, hrd, hc]
  · split at h
    · next hr =>
      cases h
      have h1 : readN 2 (wrLE 2 n.toNat ++ rest) = some (wrLE 2 n.toNat, rest) := by
        rw [readN_exact 2 _ _ (wrLE_length 2 _), map_mod_self _ (wrLE_lt 2 _)]
      have hrd : rdLE (wrLE 2 n.toNat) = n.toNat :=
        rdLE_wrLE 2 _ (by rw [pow2_8k]; norm_num; omega)
      have hc : ((n.toNat : Nat) : Int) = n := by omega
      simp only [run, List.cons_append]
      norm_num
      simp only [h1, hrd, hc]
    · split at h
      · next hr =>
        cases h
        have hlt : (n % 2 ^ 32).toNat < 2 ^ (8 * 4) := by
          rw [pow2_8k]
          norm_num
          omega
        have h1 : readN 4 (wrLE 4 (n % 2 ^ 32).toNat ++ rest) =
            some (wrLE 4 (n % 2 ^ 32).toNat, rest) := by
          rw [readN_exact 4 _ _ (wrLE_length 4 _), map_mod_self _ (wrLE_lt 4 _)]
        have hrd : rdLE (wrLE 4 (n % 2 ^ 32).toNat) = (n % 2 ^ 32).toNat :=
          rdLE_wrLE 4 _ hlt
        have hc : (if 2 ^ 31 ≤ (n % 2 ^ 32).toNat then
            ((n % 2 ^ 32).toNat : Int) - 2 ^ 32 else ((n % 2 ^ 32).toNat : Int)) = n := by
          split
          · next hge => omega
          · next hlt2 => omega
        simp only [run, List.cons_append, Nat.reduceMod, List.append_eq]
        simp only [h1, hrd, hc]
      · rw [show (let bs := tcBytes n;
            if bs.length ≤ 255 then Except.ok (138 :: bs.length :: bs)
            else if bs.length < 2 ^ 32 then
              Except.ok (139 :: wrLE 4 bs.length ++ bs)
            else (Except.error DErr.encodeFailure : Except DErr (List Nat))) =
            (if (tcBytes n).length ≤ 255 then
              Except.ok (138 :: (tcBytes n).length :: tcBytes n)
            else if (tcBytes n).length < 2 ^ 32 then
              Except.ok (139 :: wrLE 4 (tcBytes n).length ++ tcBytes n)
            else Except.error DErr.encodeFailure) from rfl] at h
        split at h
        · next hlen =>
          cases h
          have h1 : readN 1 ((tcBytes n).length :: (tcBytes n ++ rest)) =
              some ([(tcBytes n).length % 256], tcBytes n ++ rest) :=
            readN_exact 1 [(tcBytes n).length] _ rfl
          have hrd : rdLE [(tcBytes n).length % 256] = (tcBytes n).length := by
            simp [rdLE, Nat.mod_mod_of_dvd,
              Nat.mod_eq_of_lt (by omega : (tcBytes n).length < 256)]
          have h2 : readN (tcBytes n).length (tcBytes n ++ rest) =
              some (tcBytes n, rest) := by
            rw [readN_exact _ _ _ rfl, map_mod_self _ (tcBytes_lt n)]
          simp only [run, List.cons_append]
          norm_num
          simp only [h1, hrd, h2, rdTC_tcBytes]
        · split at h
          · next hlen =>
            cases h
            have h1 : readN 4 (wrLE 4 (tcBytes n).length ++ (tcBytes n ++ rest)) =
                some (wrLE 4 (tcBytes n).length, tcBytes n ++ rest) := by
              rw [readN_exact 4 _ _ (wrLE_length 4 _), map_mod_self _ (wrLE_lt 4 _)]
            have hrd : rdLE (wrLE 4 (tcBytes n).length) = (tcBytes n).length :=
              rdLE_wrLE 4 _ (by rw [pow2_8k]; norm_num at hlen ⊢; omega)
            have h2 : readN (tcBytes n).length (tcBytes n ++ rest) =
                some (tcBytes n, rest) := by
              rw [readN_exact _ _ _ rfl, map_mod_self _ (tcBytes_lt n)]
            simp only [run, List.append_assoc]
            norm_num
            simp only [h1, hrd, h2, rdTC_tcBytes]
          · cases h

theorem popMark_of (st : MSt) (tagged : List (Value × Option Nat))
    (base : List (Value × Option Nat)) (mrest : List Nat)
    (hs : st.stack = tagged ++ base) (hm : st.marks = base.length :: mrest) :
    popMark st = some ((tagged.map Prod.fst).reverse,
      { st with stack := base, marks := mrest }) := by
  unfold popMark
  rw [hm, hs]
  simp only [List.length_append]
  rw [if_pos (by omega)]
  simp only [Nat.add_sub_cancel, List.take_left, List.drop_left]

theorem step_tupleM (f : Nat) (rest : List Nat) (st : MSt) (items : List Value)
    (st1 : MSt) (h : popMark st = some (items, st1)) :
    run (f + 1) (116 :: rest) st = run f rest (push (.vtuple items) st1) := by
  simp [run, h]

theorem step_appendsList (f : Nat) (rest : List Nat) (st : MSt)
    (items : List Value) (st1 : MSt) (xs : List Value) (tg : Option Nat)
    (s2 : List (Value × Option Nat)) (h : popMark st = some (items, st1))
    (h2 : st1.stack = (.vlist xs, tg) :: s2) :
    run (f + 1) (101 :: rest) st =
      run f rest { st1 with
        stack := (.vlist (xs ++ items), tg) :: s2
        memo := patchTag st1.memo tg (.vlist (xs ++ items)) } := by
  simp [run, h, h2]

theorem step_appendsReduce (f : Nat) (rest : List Nat) (st : MSt)
    (items : List Value) (st1 : MSt) (m q : List Nat) (args : List Value)
    (s0 : Option Value) (li : List Value) (di : List (Value × Value))
    (tg : Option Nat) (s2 : List (Value × Option Nat))
    (h : popMark st = some (items, st1))
    (h2 : st1.stack = (.vreduce m q args s0 li di, tg) :: s2) :
    run (f + 1) (101 :: rest) st =
      run f rest { st1 with
        stack := (.vreduce m q args s0 (li ++ items) di, tg) :: s2
        memo := patchTag st1.memo tg (.vreduce m q args s0 (li ++ items) di) } := by
  simp [run, h, h2]

theorem step_setitemsDict (f : Nat) (rest : List Nat) (st : MSt)
    (items : List Value) (st1 : MSt) (ps : List (Value × Value))
    (xs : List (Value × Value)) (tg : Option Nat)
    (s2 : List (Value × Option Nat)) (h : popMark st = some (items, st1))
    (hp : toPairs items = some ps) (h2 : st1.stack = (.vdict xs, tg) :: s2) :
    run (f + 1) (117 :: rest) st =
      run f rest { st1 with
        stack := (.vdict (setItems xs ps), tg) :: s2
        memo := patchTag st1.memo tg (.vdict (setItems xs ps)) } := by
  simp [run, h, hp, h2]

theorem step_setitemsReduce (f : Nat) (rest : List Nat) (st : MSt)
    (items : List Value) (st1 : MSt) (ps : List (Value × Value))
    (m q : List Nat) (args : List Value) (s0 : Option Value) (li : List Value)
    (di : List (Value × Value)) (tg : Option Nat)
    (s2 : List (Value × Option Nat)) (h : popMark st = some (items, st1))
    (hp : toPairs items = some ps)
    (h2 : st1.stack = (.vreduce m q args s0 li di, tg) :: s2) :
    run (f + 1) (117 :: rest) st =
      run f rest { st1 with
        stack := (.vreduce m q args s0 li (setItems di ps), tg) :: s2
        memo := patchTag st1.memo tg (.vreduce m q args s0 li (setItems di ps)) } := by
  simp [run, h, hp, h2]

theorem step_binpersid (f : Nat) (rest : List Nat) (st : MSt) (p v : Value)
    (tg : Option Nat) (s2 : List (Value × Option Nat))
    (h : st.stack = (p, tg) :: s2) (hp : prefOfPid p = some v) :
    run (f + 1) (81 :: rest) st =
      run f rest { st with stack := (v, none) :: s2 } := by
  simp [run, h, hp]

theorem step_global (f : Nat) (m q : List Nat) (rest : List Nat) (st : MSt)
    (hm : 10 ∉ m) (hq : 10 ∉ q) (hmb : ∀ b ∈ m, b < 256)
    (hqb : ∀ b ∈ q, b < 256) :
    run (f + 1) (99 :: (m ++ 10 :: (q ++ 10 :: rest))) st =
      run f rest (push (.vglobal m q) st) := by
  simp only [run, Nat.reduceMod]
  simp only [readLine_exact m (q ++ 10 :: rest) hm hmb,
    readLine_exact q rest hq hqb]

theorem step_binget (f : Nat) (i : Nat) (rest : List Nat) (st : MSt) (v : Value)
    (hi : i < 256) (h : memoGet st.memo i = some v) :
    run (f + 1) (104 :: i :: rest) st =
      run f rest { st with stack := (v, some i) :: st.stack } := by
  have h1 : readN 1 (i :: rest) = some ([i % 256], rest) :=
    readN_exact 1 [i] rest rfl
  have hrd : rdLE [i % 256] = i := by
    simp [rdLE, Nat.mod_mod_of_dvd, Nat.mod_eq_of_lt hi]
  simp only [run, Nat.reduceMod, List.cons_append]
  simp only [h1, hrd, h]

theorem step_longbinget (f : Nat) (i : Nat) (rest : List Nat) (st : MSt)
    (v : Value) (hi : i < 2 ^ 32) (h : memoGet st.memo i = some v) :
    run (f + 1) (106 :: wrLE 4 i ++ rest) st =
      run f rest { st with stack := (v, some i) :: st.stack } := by
  have h1 : readN 4 (wrLE 4 i ++ rest) = some (wrLE 4 i, rest) := by
    rw [readN_exact 4 _ _ (wrLE_length 4 _), map_mod_self _ (wrLE_lt 4 _)]
  have hrd : rdLE (wrLE 4 i) = i :=
    rdLE_wrLE 4 _ (by rw [pow2_8k]; norm_num; omega)
  simp only [run, Nat.reduceMod, List.cons_append, List.append_eq]
  simp only [h1, hrd, h]

theorem step_proto (f : Nat) (rest : List Nat) (st : MSt) :
    run (f + 1) (128 :: 3 :: rest) st = run f rest { st with proto := 3 } := by
  simp [run]

theorem step_stop (f : Nat) (rest : List Nat) (st : MSt) (v : Value)
    (tg : Option Nat) (h : st.stack = [(v, tg)]) :
    run (f + 1) (46 :: rest) st = .ok (v, rest) := by
  simp [run, h]

theorem memoSet_append (M : List (Option Value)) (v : Value) :
    memoSet M M.length v = M ++ [some v] := by
  simp [memoSet]

theorem memoGet_append_self (M : List (Option Value)) (v : Value) :
    memoGet (M ++ [some v]) M.length = some v := by
  simp [memoGet]

theorem memoGet_append_lt (M : List (Option Value)) (x : Option Value) (j : Nat)
    (h : j < M.length) : memoGet (M ++ [x]) j = memoGet M j := by
  unfold memoGet
  rw [show (M ++ [x]).get? j = M.get? j by
    simp only [List.get?_eq_getElem?]
    exact List.getElem?_append_left h]

theorem memoGet_set_ne (M : List (Option Value)) (x : Option Value) (i j : Nat)
    (h : j ≠ i) : memoGet (M.set i x) j = memoGet M j := by
  unfold memoGet
  rw [show (M.set i x).get? j = M.get? j by
    simp only [List.get?_eq_getElem?]
    rw [List.getElem?_set_ne (by omega)]]

theorem toPairs_flatPairs : ∀ (ps : List (Value × Value)),
    toPairs (flatPairs ps) = some ps
  | [] => rfl
  | (k, v) :: tl => by
    simp only [flatPairs, toPairs, toPairs_flatPairs tl]
    rfl

theorem vbeq_comm (a b : Value) : vbeq a b = vbeq b a := by
  by_cases h : a = b
  · subst h; rfl
  · rw [show vbeq a b = false by
        cases hv : vbeq a b
        · rfl
        · exact absurd ((vbeq_iff a b).mp hv) h,
      show vbeq b a = false by
        cases hv : vbeq b a
        · rfl
        · exact absurd ((vbeq_iff b a).mp hv).symm h]

theorem setItemB_append (xs : List (Value × Value)) (k v : Value)
    (h : ∀ p ∈ xs, vbeq p.1 k = false) : setItemB xs k v = xs ++ [(k, v)] := by
  induction xs with
  | nil => rfl
  | cons p tl ih =>
    obtain ⟨k0, v0⟩ := p
    have h0 : vbeq k0 k = false := h (k0, v0) (by simp)
    simp only [setItemB, h0, Bool.false_eq_true, if_false, List.cons_append,
      List.cons.injEq, true_and]
    exact ih fun p hp => h p (by simp [hp])

theorem setItems_disjoint : ∀ (ps xs : List (Value × Value)),
    distinctKeys ps = true → (∀ p ∈ ps, ∀ x ∈ xs, vbeq x.1 p.1 = false) →
    setItems xs ps = xs ++ ps
  | [], xs, _, _ => by simp [setItems]
  | (k, v) :: tl, xs, hd, hdisj => by
    simp only [distinctKeys, Bool.and_eq_true, List.all_eq_true,
      Bool.not_eq_true'] at hd
    have h1 : setItemB xs k v = xs ++ [(k, v)] :=
      setItemB_append xs k v fun p hp => hdisj (k, v) (by simp) p hp
    have h2 : setItems xs ((k, v) :: tl) = setItems (setItemB xs k v) tl := rfl
    rw [h2, h1, setItems_disjoint tl (xs ++ [(k, v)]) hd.2 ?_]
    · simp
    · intro p hp x hx
      rcases List.mem_append.1 hx with hx | hx
      · exact hdisj p (by simp [hp]) x hx
      · simp at hx
        subst hx
        exact hd.1 p hp

theorem setItems_nil_of_distinct (ps : List (Value × Value))
    (hd : distinctKeys ps = true) : setItems [] ps = ps := by
  have := setItems_disjoint ps [] hd (by simp)
  simpa using this

theorem lookup_mem {α β : Type} [BEq α] [LawfulBEq α] (l : List (α × β)) (a : α)
    (b : β) (h : l.lookup a = some b) : (a, b) ∈ l := by
  induction l with
  | nil => cases h
  | cons p tl ih =>
    obtain ⟨x, y⟩ := p
    simp only [List.lookup] at h
    by_cases hx : a = x
    · subst hx
      simp at h
      simp [h]
    · rw [show (a == x) = false by simpa using hx] at h
      simp at h
      simp [ih h]

theorem memoGet_lt (M : List (Option Value)) (i : Nat) (v : Value)
    (h : memoGet M i = some v) : i < M.length := by
  unfold memoGet at h
  by_contra hc
  rw [List.get?_eq_none.mpr (by omega)] at h
  cases h

theorem splitLastDot_mem : ∀ (s : List Nat),
    (∀ c ∈ (splitLastDot s).1, c ∈ s) ∧ ∀ c ∈ (splitLastDot s).2, c ∈ s
  | [] => by simp [splitLastDot]
  | c :: tl => by
    obtain ⟨ih1, ih2⟩ := splitLastDot_mem tl
    unfold splitLastDot
    cases hsp : splitLastDot tl with
    | mk a b =>
      rw [hsp] at ih1 ih2
      simp only [hsp]
      split
      · constructor
        · intro x hx
          rcases List.mem_cons.1 hx with rfl | hx
          · exact List.mem_cons_self _ _
          · exact List.mem_cons_of_mem _ (ih1 x hx)
        · intro x hx
          exact List.mem_cons_of_mem _ (ih2 x hx)
      · split
        · constructor
          · intro x hx; simp at hx
          · intro x hx; exact List.mem_cons_of_mem _ hx
        · constructor
          · intro x hx
            rcases List.mem_cons.1 hx with rfl | hx
            · exact List.mem_cons_self _ _
            · exact List.mem_cons_of_mem _ (ih1 x hx)
          · intro x hx
            exact List.mem_cons_of_mem _ (ih2 x hx)

theorem emitGlobalE_run (m q : List Nat) (e : Enc) (bs : List Nat) (ic : Nat)
    (e' : Enc) (h : emitGlobalE m q e = .ok (bs, ic, e'))
    (hmb : ∀ b ∈ m, b < 256) (hqb : ∀ b ∈ q, b < 256)
    (st : MSt) (hInv : InvE e st.memo) :
    ∃ tg M',
      (∀ f rest, run (ic + f) (bs ++ rest) st =
        run f rest { st with stack := (.vglobal m q, tg) :: st.stack, memo := M' }) ∧
      InvE e' M' ∧
      (∀ j, j < st.memo.length → memoGet M' j = memoGet st.memo j) ∧
      st.memo.length ≤ M'.length := by
  unfold emitGlobalE at h
  split at h
  · cases h
  · next hnl =>
    push_neg at hnl
    obtain ⟨hm10, hq10⟩ := hnl
    cases hlk : List.lookup (m, q) e.2 with
    | some i =>
      simp only [hlk] at h
      split at h
      · next hi =>
        cases h
        have hv := hInv.2 (m, q) i (lookup_mem _ _ _ hlk)
        refine ⟨some i, st.memo, ?_, hInv, fun j _ => rfl, le_refl _⟩
        intro f rest
        rw [show 1 + f = f + 1 by omega,
          show ([104, i] : List Nat) ++ rest = 104 :: i :: rest from rfl]
        exact step_binget f i rest st _ hi hv
      · split at h
        · next hi =>
          cases h
          have hv := hInv.2 (m, q) i (lookup_mem _ _ _ hlk)
          refine ⟨some i, st.memo, ?_, hInv, fun j _ => rfl, le_refl _⟩
          intro f rest
          rw [show 1 + f = f + 1 by omega,
            show (106 :: wrLE 4 i) ++ rest = 106 :: (wrLE 4 i ++ rest) from rfl]
          exact step_longbinget f i rest st _ hi hv
        · cases h
    | none =>
      simp only [hlk] at h
      cases h
      refine ⟨some st.memo.length, st.memo ++ [some (.vglobal m q)], ?_, ?_, ?_, by simp⟩
      · intro f rest
        rw [show 2 + f = (f + 1) + 1 by omega,
          show (99 :: m ++ 10 :: q ++ [10, 148]) ++ rest =
            99 :: (m ++ 10 :: (q ++ 10 :: (148 :: rest))) by simp,
          step_global (f + 1) m q (148 :: rest) st hm10 hq10 hmb hqb,
          step_memoize f rest (push (.vglobal m q) st) (.vglobal m q) none
            st.stack rfl]
        have hms : memoSet (push (.vglobal m q) st).memo
            (push (.vglobal m q) st).memo.length (.vglobal m q) =
            st.memo ++ [some (.vglobal m q)] := memoSet_append st.memo _
        rw [hms]
        rfl
      · constructor
        · simp [hInv.1]
        · intro mq i hmem
          rcases List.mem_cons.1 hmem with heq | hmem2
          · cases heq
            rw [← hInv.1]
            exact memoGet_append_self _ _
          · have hv := hInv.2 mq i hmem2
            rw [memoGet_append_lt _ _ _ (memoGet_lt _ _ _ hv)]
            exact hv
      · intro j hj
        exact memoGet_append_lt _ _ _ hj

end ZJC
